import Mathlib

/-!
# Flattening cursor over a jagged container

A verification development for `main.cpp`: the random-access cursor
`FlattenIterator<T>` and the facade `FlattenedVector<T>` that present a
`std::vector<std::vector<T>>` as one flat, randomly addressable range.

Conventions of the embedding.

* The jagged container is a `List (List T)`; the cursor and the facade hold a
  *pointer* to it, modelled by an address (`Nat`).  Every operation that goes
  through the pointer takes the pointee's current contents as an explicit
  argument, so the container can change between two operations.
* `size_t` is a natural number below `2 ^ 64`, `std::ptrdiff_t` an integer in
  `[-2 ^ 63, 2 ^ 63)`; wrap-around is written out with `%`.
* A C++ exception is an `Except.error`.  The unchecked subscript of
  `std::vector` outside its bounds (undefined behaviour in C++) is the separate
  error `Error.invalid_access`, and a signed subtraction whose result leaves
  the range of its type (undefined behaviour too) is `Error.signed_overflow`.
* A loop whose number of rounds is not bounded by its syntax takes a fuel
  argument and returns `none` when the fuel runs out.
-/

set_option autoImplicit false

namespace Flatten

/-! ## Machine integers -/

/-- Number of values of `size_t` (64-bit). -/
def SIZE_MOD : Nat := 2 ^ 64

/-- Largest value of `size_t`. -/
def SIZE_MAX : Nat := 2 ^ 64 - 1

/-- Largest value of `std::ptrdiff_t`. -/
def PTRDIFF_MAX : Nat := 2 ^ 63 - 1

/-- Conversion `static_cast<difference_type>(x)` of a `size_t` value: values
from `2 ^ 63` on wrap to the negative half. -/
def to_difference_type (x : Nat) : Int :=
  if x % SIZE_MOD < 2 ^ 63 then ((x % SIZE_MOD : Nat) : Int)
  else ((x % SIZE_MOD : Nat) : Int) - (SIZE_MOD : Int)

/-- Conversion of a signed offset to `size_t` (reduction modulo `2 ^ 64`). -/
def to_size_t (n : Int) : Nat := (n % (SIZE_MOD : Int)).toNat

/-! ## Errors and the container -/

/-- Ways an operation of the adapter can fail. -/
inductive Error where
  /-- The exception `std::out_of_range("Index out of range")` thrown by `locate`. -/
  | out_of_range : Error
  /-- An unchecked `std::vector` subscript outside the bounds. -/
  | invalid_access : Error
  /-- A signed subtraction whose result is outside the range of its type. -/
  | signed_overflow : Error
  deriving DecidableEq, Repr

deriving instance DecidableEq for Except

/-- The jagged container `std::vector<std::vector<T>>`. -/
abbrev Jagged (T : Type) : Type := List (List T)

/-- Lengths of the inner sequences, in outer order. -/
def shape {T : Type} (data : Jagged T) : List Nat := data.map List.length

/-- Sum of the inner lengths. -/
def total_count {T : Type} (data : Jagged T) : Nat := (shape data).sum

/-- Unchecked double subscript `(*container)[outer][inner]`, read. -/
def read_at {T : Type} (data : Jagged T) (pos : Nat × Nat) : Except Error T :=
  match data[pos.1]? with
  | none => .error .invalid_access
  | some row =>
    match row[pos.2]? with
    | none => .error .invalid_access
    | some v => .ok v

/-- Unchecked double subscript `(*container)[outer][inner]`, assigned through
the returned reference. -/
def write_at {T : Type} (data : Jagged T) (pos : Nat × Nat) (v : T) :
    Except Error (Jagged T) :=
  match data[pos.1]? with
  | none => .error .invalid_access
  | some row =>
    if pos.2 < row.length then .ok (data.set pos.1 (row.set pos.2 v))
    else .error .invalid_access

/-! ## `FlattenIterator` -/

/-- The cursor: a pointer to the container and a logical index (`size_t`). -/
structure FlattenIterator where
  /-- Address of the container the cursor refers to. -/
  container : Nat
  /-- The logical index. -/
  global_index : Nat
  deriving DecidableEq, Repr

namespace FlattenIterator

/-- The `while` loop of `locate` (lines 106-113), entered with loop variable
`outer` and remaining `index`; `rows` is the part of the container from
position `outer` on, so `rows = []` is the exit `outer == container->size()`,
after which the exception is thrown (line 114). -/
def locate_loop {T : Type} : List (List T) → Nat → Nat → Except Error (Nat × Nat)
  | [], _, _ => .error .out_of_range
  | row :: rows, outer, index =>
    if index < row.length then .ok (outer, index)
    else locate_loop rows (outer + 1) (index - row.length)

/-- Method `locate(index)` (lines 104-115) of a cursor whose container
currently holds `data`. -/
def locate {T : Type} (data : Jagged T) (index : Nat) : Except Error (Nat × Nat) :=
  locate_loop data 0 index

/-- Dereference `*it` read as a value (lines 19-22). -/
def deref {T : Type} (it : FlattenIterator) (data : Jagged T) : Except Error T :=
  match locate data it.global_index with
  | .error e => .error e
  | .ok pos => read_at data pos

/-- Assignment `*it = v` through the reference returned by `operator*`
(lines 19-22); the result is the new contents of the container. -/
def assign {T : Type} (it : FlattenIterator) (data : Jagged T) (v : T) :
    Except Error (Jagged T) :=
  match locate data it.global_index with
  | .error e => .error e
  | .ok pos => write_at data pos v

/-- Pre-increment `++it` (lines 28-31). -/
def incr (it : FlattenIterator) : FlattenIterator :=
  { it with global_index := (it.global_index + 1) % SIZE_MOD }

/-- Pre-decrement `--it` (lines 39-42). -/
def decr (it : FlattenIterator) : FlattenIterator :=
  { it with global_index := (it.global_index + SIZE_MOD - 1) % SIZE_MOD }

/-- Offset `it + n` (lines 50-52): `n` is converted to `size_t` and added
modulo `2 ^ 64`. -/
def add (it : FlattenIterator) (n : Int) : FlattenIterator :=
  { it with global_index := (it.global_index + to_size_t n) % SIZE_MOD }

/-- Offset `it - n` (lines 54-56). -/
def sub (it : FlattenIterator) (n : Int) : FlattenIterator :=
  { it with global_index := (it.global_index + SIZE_MOD - to_size_t n) % SIZE_MOD }

/-- Distance `it - other` (lines 58-60): both indices are converted to
`difference_type` and the two converted values are subtracted as
`difference_type` values, with no reduction; a difference outside
`[-2 ^ 63, 2 ^ 63)` is a signed overflow. -/
def distance (it other : FlattenIterator) : Except Error Int :=
  if -(2 ^ 63 : Int) ≤ to_difference_type it.global_index - to_difference_type other.global_index
      ∧ to_difference_type it.global_index - to_difference_type other.global_index
        ≤ (PTRDIFF_MAX : Int) then
    .ok (to_difference_type it.global_index - to_difference_type other.global_index)
  else .error .signed_overflow

/-- Equality `it == other` (lines 76-78). -/
def eq (it other : FlattenIterator) : Bool :=
  it.container == other.container && it.global_index == other.global_index

/-- Inequality `it != other` (lines 80-82). -/
def ne (it other : FlattenIterator) : Bool := !(it.eq other)

/-- Comparison `it < other` (lines 84-86). -/
def lt (it other : FlattenIterator) : Bool := it.global_index < other.global_index

/-- Comparison `it > other` (lines 88-90). -/
def gt (it other : FlattenIterator) : Bool := it.global_index > other.global_index

/-- Comparison `it <= other` (lines 92-94). -/
def le (it other : FlattenIterator) : Bool := it.global_index ≤ other.global_index

/-- Comparison `it >= other` (lines 96-98). -/
def ge (it other : FlattenIterator) : Bool := it.global_index ≥ other.global_index

/-- Indexed dereference `it[n]` (lines 72-74), read as a value. -/
def index {T : Type} (it : FlattenIterator) (n : Int) (data : Jagged T) : Except Error T :=
  (it.add n).deref data

end FlattenIterator

/-! ## `FlattenedVector` -/

/-- The facade: a pointer to the container and the cached element count. -/
structure FlattenedVector where
  /-- Address of the container. -/
  data : Nat
  /-- The element count computed by the constructor. -/
  total_size : Nat
  deriving DecidableEq, Repr

namespace FlattenedVector

/-- The constructor (lines 124-129), for a container at address `ptr` that
holds `data` at that moment: `total_size` starts at 0 and each row adds its
size, in `size_t` arithmetic. -/
def construct {T : Type} (ptr : Nat) (data : Jagged T) : FlattenedVector :=
  { data := ptr
    total_size := data.foldl (fun acc row => (acc + row.length) % SIZE_MOD) 0 }

/-- Method `begin()` (lines 131-133, 139-141). -/
def begin (fv : FlattenedVector) : FlattenIterator :=
  { container := fv.data, global_index := 0 }

/-- Method `end()` (lines 135-137, 143-145). -/
def end_ (fv : FlattenedVector) : FlattenIterator :=
  { container := fv.data, global_index := fv.total_size }

end FlattenedVector

/-- Contents of the flat view: what a correct resolution of logical index
`index` in `rows` looks like, for the coordinate `(o, n)`. -/
structure Resolves {T : Type} (rows : Jagged T) (index : Nat) (o n : Nat) : Prop where
  /-- The outer index designates an inner sequence. -/
  outer_lt : o < rows.length
  /-- The inner index lies inside that inner sequence. -/
  inner_lt : n < (rows.getD o []).length
  /-- The lengths before `o` plus the inner index give back the logical index. -/
  offset : ((shape rows).take o).sum + n = index
  /-- The element there is the element of the concatenation at `index`. -/
  element : (rows.getD o [])[n]? = rows.flatten[index]?

/-! ## Algorithms run over the cursor range -/

/-- The loop `for (auto it = begin(); it != end(); ++it) { ... *it ... }`
(lines 168-174), entered with cursor `it`; the result lists the values the
dereferences gave, in order of visit. -/
def traverse_loop {T : Type} (fv : FlattenedVector) (data : Jagged T) :
    Nat → FlattenIterator → Option (Except Error (List T))
  | 0, _ => none
  | fuel + 1, it =>
    if it.ne fv.end_ then
      match it.deref data with
      | .error e => some (.error e)
      | .ok v =>
        match traverse_loop fv data fuel it.incr with
        | none => none
        | some (.error e) => some (.error e)
        | some (.ok vs) => some (.ok (v :: vs))
    else some (.ok [])

/-- Traversal of the view from `begin()` to `end()`. -/
def traverse {T : Type} (fuel : Nat) (fv : FlattenedVector) (data : Jagged T) :
    Option (Except Error (List T)) :=
  traverse_loop fv data fuel fv.begin

/-- The loop of the standard linear minimum scan,
`while (++first != last) if (*first < *result) result = first;`. -/
def min_element_loop {T : Type} [LinearOrder T] (data : Jagged T) (last : FlattenIterator) :
    Nat → FlattenIterator → FlattenIterator → Option (Except Error FlattenIterator)
  | 0, _, _ => none
  | fuel + 1, first, result =>
    if first.incr.ne last then
      match first.incr.deref data with
      | .error e => some (.error e)
      | .ok a =>
        match result.deref data with
        | .error e => some (.error e)
        | .ok b => min_element_loop data last fuel first.incr (if a < b then first.incr else result)
    else some (.ok result)

/-- Linear minimum scan `std::min_element(first, last)` as called on line 187:
`if (first == last) return last; result = first;` followed by the loop. -/
def min_element {T : Type} [LinearOrder T] (fuel : Nat) (data : Jagged T)
    (first last : FlattenIterator) : Option (Except Error FlattenIterator) :=
  if first.eq last then some (.ok last) else min_element_loop data last fuel first first

/-- The loop of the standard linear maximum scan,
`while (++first != last) if (*result < *first) result = first;`. -/
def max_element_loop {T : Type} [LinearOrder T] (data : Jagged T) (last : FlattenIterator) :
    Nat → FlattenIterator → FlattenIterator → Option (Except Error FlattenIterator)
  | 0, _, _ => none
  | fuel + 1, first, result =>
    if first.incr.ne last then
      match result.deref data with
      | .error e => some (.error e)
      | .ok b =>
        match first.incr.deref data with
        | .error e => some (.error e)
        | .ok a => max_element_loop data last fuel first.incr (if b < a then first.incr else result)
    else some (.ok result)

/-- Linear maximum scan `std::max_element(first, last)` as called on line 188. -/
def max_element {T : Type} [LinearOrder T] (fuel : Nat) (data : Jagged T)
    (first last : FlattenIterator) : Option (Except Error FlattenIterator) :=
  if first.eq last then some (.ok last) else max_element_loop data last fuel first first

/-- An in-place procedure over a cursor range, seen through the only two ways
it touches the elements: reading `*it` and assigning `*it = v`, for a cursor
`it` with the given logical index.  Cursor arithmetic and comparisons do not
touch the container and appear as ordinary computation between the steps. -/
inductive CursorProg (T : Type) where
  /-- The procedure returns. -/
  | done : CursorProg T
  /-- Read `*it` at logical index `i` and continue with the value. -/
  | read : Nat → (T → CursorProg T) → CursorProg T
  /-- Assign `*it = v` at logical index `i` and continue. -/
  | write : Nat → T → CursorProg T → CursorProg T

namespace CursorProg

/-- Run a procedure through cursors over the container at address
`container`: every read is a `FlattenIterator` dereference, every assignment
goes through the reference the dereference returns. -/
def run {T : Type} (container : Nat) : CursorProg T → Jagged T → Except Error (Jagged T)
  | .done, data => .ok data
  | .read i k, data =>
    match (FlattenIterator.mk container i).deref data with
    | .error e => .error e
    | .ok v => (k v).run container data
  | .write i v k, data =>
    match (FlattenIterator.mk container i).assign data v with
    | .error e => .error e
    | .ok data' => k.run container data'

/-- Run the same procedure over a plain contiguous array, where position `i`
is simply the `i`-th cell; an access outside the array fails. -/
def run_array {T : Type} : CursorProg T → List T → Except Error (List T)
  | .done, xs => .ok xs
  | .read i k, xs =>
    match xs[i]? with
    | none => .error .out_of_range
    | some v => (k v).run_array xs
  | .write i v k, xs =>
    if i < xs.length then k.run_array (xs.set i v) else .error .out_of_range

end CursorProg

/-- Inner loop of insertion sort: `val` is moved down from the hole `j` while
the element before the hole is greater,
`while (j != first && val < *(j - 1)) { *j = *(j - 1); --j; }  *j = val;`.
The first argument bounds the number of rounds (at most `j - first`). -/
def insert_loop {T : Type} [LinearOrder T] (first : Nat) (val : T) :
    Nat → Nat → CursorProg T → CursorProg T
  | 0, j, k => .write j val k
  | rounds + 1, j, k =>
    if j = first then .write j val k
    else .read (j - 1) fun before =>
      if val < before then .write j before (insert_loop first val rounds (j - 1) k)
      else .write j val k

/-- Outer loop of insertion sort,
`for (i = first + 1; i != last; ++i) { val = *i; ... }`. -/
def insertion_sort_loop {T : Type} [LinearOrder T] (first last : Nat) :
    Nat → Nat → CursorProg T
  | 0, _ => .done
  | rounds + 1, i =>
    if i = last then .done
    else .read i fun val =>
      insert_loop first val (i - first) i (insertion_sort_loop first last rounds (i + 1))

/-- Insertion sort of the cursor range `[first, last)`: an example of an
in-place comparison sort that touches the elements through cursors only. -/
def insertion_sort {T : Type} [LinearOrder T] (first last : Nat) : CursorProg T :=
  if first = last then .done
  else insertion_sort_loop first last (last - first) (first + 1)

/-- An in-place sort called on a cursor range, `sort(first, last)`: the
procedure is chosen from the two logical indices and run over the container
the cursors point to. -/
def sort_range {T : Type} (sort : Nat → Nat → CursorProg T)
    (first last : FlattenIterator) (data : Jagged T) : Except Error (Jagged T) :=
  (sort first.global_index last.global_index).run first.container data

/-- The container of `main` (line 184). -/
def example_data : Jagged Int := [[3, 1, 4], [], [1, 5, 9], [2, 6, 5, 3], []]


/-! ## Further cursor operations -/

/-- Reduction of a signed value to the range of `difference_type`, as a
64-bit machine addition or subtraction leaves it. -/
def wrap_difference (z : Int) : Int := to_difference_type (to_size_t z)

namespace FlattenIterator

/-- The element designated by the reference that `*it` returns (lines
19-22), as its coordinate in the container. -/
def place {T : Type} (it : FlattenIterator) (data : Jagged T) : Except Error (Nat × Nat) :=
  locate data it.global_index

/-- The element designated by the reference that `it[n]` returns (lines
72-74). -/
def index_place {T : Type} (it : FlattenIterator) (n : Int) (data : Jagged T) :
    Except Error (Nat × Nat) :=
  (it.add n).place data

/-- Assignment `it[n] = v` through the reference that `it[n]` returns
(lines 72-74). -/
def index_assign {T : Type} (it : FlattenIterator) (n : Int) (data : Jagged T) (v : T) :
    Except Error (Jagged T) :=
  (it.add n).assign data v

/-- A call of `it[n]` (lines 72-74) in state-passing form: the cursor `it`
after the call, then the value read.  The body dereferences the temporary
`*this + n` and assigns no member of `it`. -/
def index_call {T : Type} (it : FlattenIterator) (n : Int) (data : Jagged T) :
    FlattenIterator × Except Error T :=
  (it, (it.add n).deref data)

end FlattenIterator

/-! ## Rendering

The output stream is the text written to it so far; `to_text` is the
stream insertion `os << x` of one element, `std::endl` writes a newline. -/

/-- Inner loop of the matrix rendering (lines 153-158), entered with loop
variable `j`; `elems` is the part of the row from position `j` on. -/
def matrix_row_loop {T : Type} (to_text : T → String) : List T → Nat → String → String
  | [], _, os => os
  | x :: elems, j, os =>
    matrix_row_loop to_text elems (j + 1) ((if j > 0 then os ++ ", " else os) ++ to_text x)

/-- Outer loop of the stream insertion of a view (lines 148-161), run on the
rows still to be written. -/
def matrix_loop {T : Type} (to_text : T → String) : List (List T) → String → String
  | [], os => os
  | row :: rows, os =>
    matrix_loop to_text rows
      ((if row.isEmpty then os ++ "[ " ++ "<empty>"
        else matrix_row_loop to_text row 0 (os ++ "[ ")) ++ " ]" ++ "\n")

/-- Matrix rendering `os << fv` (lines 147-163) into an empty stream, for a
view whose container currently holds `data`. -/
def render_matrix {T : Type} (to_text : T → String) (data : Jagged T) : String :=
  matrix_loop to_text data ""

/-- The loop of `print_flat` (lines 168-174), entered with cursor `it` and
flag `first`. -/
def print_flat_loop {T : Type} (to_text : T → String) (fv : FlattenedVector) (data : Jagged T) :
    Nat → FlattenIterator → Bool → String → Option (Except Error String)
  | 0, _, _, _ => none
  | fuel + 1, it, first, os =>
    if it.ne fv.end_ then
      match it.deref data with
      | .error e => some (.error e)
      | .ok v =>
        print_flat_loop to_text fv data fuel it.incr false
          ((if !first then os ++ ", " else os) ++ to_text v)
    else some (.ok os)

/-- Flat rendering `fv.print_flat(os)` (lines 165-176) into an empty stream. -/
def print_flat {T : Type} (to_text : T → String) (fuel : Nat) (fv : FlattenedVector)
    (data : Jagged T) : Option (Except Error String) :=
  match print_flat_loop to_text fv data fuel fv.begin true "[ " with
  | some (.ok os) => some (.ok (os ++ " ]" ++ "\n"))
  | some (.error e) => some (.error e)
  | none => none

/-- One line of the matrix form, in the words of the specification: the
marker for an inner sequence of length 0, otherwise its elements separated
by a comma and a space, between `[ ` and ` ]`, then a newline. -/
def matrix_line {T : Type} (to_text : T → String) (row : List T) : String :=
  "[ " ++ (if row.length = 0 then "<empty>" else String.intercalate ", " (row.map to_text))
    ++ " ]" ++ "\n"

/-- The matrix form in the words of the specification: one line for each
inner sequence, in outer order. -/
def matrix_text {T : Type} (to_text : T → String) (data : Jagged T) : String :=
  String.join (data.map (matrix_line to_text))

/-- The flat form in the words of the specification: every element of the
concatenation, separated by a comma and a space, on one line. -/
def flat_text {T : Type} (to_text : T → String) (data : Jagged T) : String :=
  "[ " ++ String.intercalate ", " (data.flatten.map to_text) ++ " ]" ++ "\n"

/-- The decimal text `os << x` writes for an `int`. -/
def int_text (x : Int) : String := toString x

/-- A container with the empty inner sequences of `data` removed. -/
def drop_empty {T : Type} (data : Jagged T) : Jagged T :=
  data.filter (fun row => !row.isEmpty)

/-- The container `data` with one more empty inner sequence, at outer
position `k`. -/
def insert_empty {T : Type} (data : Jagged T) (k : Nat) : Jagged T :=
  data.take k ++ [] :: data.drop k

/-! ## Auxiliary lemmas -/

open FlattenIterator

theorem total_count_cons {T : Type} (row : List T) (rows : Jagged T) :
    total_count (row :: rows) = row.length + total_count rows := by
  simp [total_count, shape]

theorem total_count_eq_length_flatten {T : Type} (data : Jagged T) :
    total_count data = data.flatten.length := by
  simp [total_count, shape, List.length_flatten]

theorem locate_loop_ok {T : Type} (rows : Jagged T) :
    ∀ (outer index : Nat), index < total_count rows →
      ∃ o n, locate_loop rows outer index = .ok (outer + o, n) ∧ Resolves rows index o n := by
  induction rows with
  | nil => intro outer index h; simp [total_count, shape] at h
  | cons row rows ih =>
    intro outer index h
    rw [total_count_cons] at h
    by_cases hlt : index < row.length
    · refine ⟨0, index, by simp [locate_loop, hlt], ?_⟩
      constructor
      · simp
      · simpa using hlt
      · simp [shape]
      · simp [List.getElem?_append, hlt]
    · obtain ⟨o, n, hrun, hres⟩ := ih (outer + 1) (index - row.length) (by omega)
      refine ⟨o + 1, n, ?_, ?_⟩
      · simp only [locate_loop, hlt, if_false, hrun]
        congr 2; omega
      · constructor
        · simpa using hres.outer_lt
        · simpa using hres.inner_lt
        · have := hres.offset
          simp [shape] at this ⊢
          omega
        · have := hres.element
          simp [List.getElem?_append, hlt]
          simpa using this

theorem locate_loop_error {T : Type} (rows : Jagged T) :
    ∀ (outer index : Nat), total_count rows ≤ index →
      locate_loop rows outer index = .error .out_of_range := by
  induction rows with
  | nil => intro outer index _; rfl
  | cons row rows ih =>
    intro outer index h
    rw [total_count_cons] at h
    have hlt : ¬ index < row.length := by omega
    simp only [locate_loop, hlt, if_false]
    exact ih _ _ (by omega)

theorem locate_ok {T : Type} (data : Jagged T) (index : Nat) (h : index < total_count data) :
    ∃ o n, locate data index = .ok (o, n) ∧ Resolves data index o n := by
  obtain ⟨o, n, hrun, hres⟩ := locate_loop_ok data 0 index h
  exact ⟨o, n, by simpa [locate] using hrun, hres⟩

theorem locate_error {T : Type} (data : Jagged T) (index : Nat) (h : total_count data ≤ index) :
    locate data index = .error .out_of_range :=
  locate_loop_error data 0 index h

/-- The coordinate `(o, n)` of a valid position is what the loop returns for
the logical index "lengths before `o`, plus `n`". -/
theorem locate_loop_of_coordinate {T : Type} (rows : Jagged T) :
    ∀ (outer o n : Nat), o < rows.length → n < (rows.getD o []).length →
      locate_loop rows outer (((shape rows).take o).sum + n) = .ok (outer + o, n) := by
  induction rows with
  | nil => intro outer o n h; simp at h
  | cons row rows ih =>
    intro outer o n ho hn
    cases o with
    | zero =>
      have hn' : n < row.length := by simpa using hn
      simp [locate_loop, shape, hn']
    | succ o =>
      have ho' : o < rows.length := by simpa using ho
      have hn' : n < (rows.getD o []).length := by simpa using hn
      have hge : ¬ (row.length + ((shape rows).take o).sum + n < row.length) := by omega
      have hsub : row.length + ((shape rows).take o).sum + n - row.length
          = ((shape rows).take o).sum + n := by omega
      have := ih (outer + 1) o n ho' hn'
      simp only [shape, List.map_cons, List.take_succ_cons, List.sum_cons, locate_loop]
        at this hge hsub ⊢
      rw [if_neg hge, hsub, this]
      congr 2; omega

theorem read_at_of_resolves {T : Type} {data : Jagged T} {index o n : Nat}
    (h : Resolves data index o n) :
    ∃ v, data.flatten[index]? = some v ∧ read_at data (o, n) = .ok v := by
  have hrow : data[o]? = some (data.getD o []) := by
    simp [List.getD_eq_getElem?_getD, List.getElem?_eq_getElem h.outer_lt]
  have hin := h.inner_lt
  refine ⟨(data.getD o [])[n], ?_, ?_⟩
  · rw [← h.element, List.getElem?_eq_getElem hin]
  · simp only [read_at, hrow, List.getElem?_eq_getElem hin]

theorem set_coordinate {T : Type} (v : T) (data : Jagged T) :
    ∀ (o n : Nat), o < data.length → n < (data.getD o []).length →
      shape (data.set o ((data.getD o []).set n v)) = shape data ∧
      (data.set o ((data.getD o []).set n v)).flatten
        = data.flatten.set (((shape data).take o).sum + n) v := by
  induction data with
  | nil => intro o n h; simp at h
  | cons row rows ih =>
    intro o n ho hn
    cases o with
    | zero =>
      have hn' : n < row.length := by simpa using hn
      simp [shape, List.set_append, hn']
    | succ o =>
      have ho' : o < rows.length := by simpa using ho
      have hn' : n < (rows.getD o []).length := by simpa using hn
      obtain ⟨h1, h2⟩ := ih o n ho' hn'
      have hge : ¬ (row.length + ((shape rows).take o).sum + n < row.length) := by omega
      have hsub : row.length + ((shape rows).take o).sum + n - row.length
          = ((shape rows).take o).sum + n := by omega
      constructor
      · simp only [shape] at h1 ⊢
        simpa using h1
      · simp only [shape, List.map_cons, List.take_succ_cons, List.sum_cons, List.set_cons_succ,
          List.getD_cons_succ, List.flatten_cons, List.set_append] at h2 hge hsub ⊢
        rw [if_neg hge, hsub, h2]

theorem write_at_of_resolves {T : Type} {data : Jagged T} {index o n : Nat} (v : T)
    (h : Resolves data index o n) :
    ∃ data', write_at data (o, n) v = .ok data' ∧ shape data' = shape data ∧
      data'.flatten = data.flatten.set index v := by
  have hrow : data[o]? = some (data.getD o []) := by
    simp [List.getD_eq_getElem?_getD, List.getElem?_eq_getElem h.outer_lt]
  obtain ⟨h1, h2⟩ := set_coordinate v data o n h.outer_lt h.inner_lt
  refine ⟨data.set o ((data.getD o []).set n v), ?_, h1, ?_⟩
  · simp only [write_at, hrow, h.inner_lt, if_true]
  · rw [h2, h.offset]

theorem deref_of_lt {T : Type} (it : FlattenIterator) (data : Jagged T)
    (h : it.global_index < total_count data) :
    ∃ v, data.flatten[it.global_index]? = some v ∧ it.deref data = .ok v := by
  obtain ⟨o, n, hloc, hres⟩ := locate_ok data it.global_index h
  obtain ⟨v, hv, hread⟩ := read_at_of_resolves hres
  exact ⟨v, hv, by simp only [deref, hloc, hread]⟩

theorem deref_of_ge {T : Type} (it : FlattenIterator) (data : Jagged T)
    (h : total_count data ≤ it.global_index) :
    it.deref data = .error .out_of_range := by
  simp only [deref, locate_error data it.global_index h]

theorem assign_of_lt {T : Type} (it : FlattenIterator) (data : Jagged T) (v : T)
    (h : it.global_index < total_count data) :
    ∃ data', it.assign data v = .ok data' ∧ shape data' = shape data ∧
      data'.flatten = data.flatten.set it.global_index v := by
  obtain ⟨o, n, hloc, hres⟩ := locate_ok data it.global_index h
  obtain ⟨data', hw, hs, hf⟩ := write_at_of_resolves v hres
  exact ⟨data', by simp only [assign, hloc, hw], hs, hf⟩

theorem assign_of_ge {T : Type} (it : FlattenIterator) (data : Jagged T) (v : T)
    (h : total_count data ≤ it.global_index) :
    it.assign data v = .error .out_of_range := by
  simp only [assign, locate_error data it.global_index h]

theorem total_size_fold {T : Type} (data : Jagged T) :
    ∀ acc : Nat, acc < SIZE_MOD →
      data.foldl (fun acc row => (acc + row.length) % SIZE_MOD) acc
        = (acc + total_count data) % SIZE_MOD := by
  induction data with
  | nil => intro acc h; simp [total_count, shape, Nat.mod_eq_of_lt h]
  | cons row rows ih =>
    intro acc _
    have hpos : 0 < SIZE_MOD := by simp [SIZE_MOD]
    rw [List.foldl_cons, ih _ (Nat.mod_lt _ hpos), total_count_cons, Nat.mod_add_mod,
      Nat.add_assoc]

theorem construct_total_size {T : Type} (ptr : Nat) (data : Jagged T) :
    (FlattenedVector.construct ptr data).total_size = total_count data % SIZE_MOD := by
  have hpos : 0 < SIZE_MOD := by simp [SIZE_MOD]
  simp [FlattenedVector.construct, total_size_fold data 0 hpos]

theorem construct_total_size_of_le {T : Type} (ptr : Nat) (data : Jagged T)
    (h : total_count data ≤ SIZE_MAX) :
    (FlattenedVector.construct ptr data).total_size = total_count data := by
  rw [construct_total_size]
  apply Nat.mod_eq_of_lt
  simp only [SIZE_MAX, SIZE_MOD] at h ⊢
  omega


theorem incr_of_lt (it : FlattenIterator) (h : it.global_index < SIZE_MAX) :
    it.incr = ⟨it.container, it.global_index + 1⟩ := by
  have : (it.global_index + 1) % SIZE_MOD = it.global_index + 1 := by
    apply Nat.mod_eq_of_lt
    simp only [SIZE_MAX, SIZE_MOD] at h ⊢
    omega
  simp [incr, this]

theorem ne_same_container (c i j : Nat) :
    (FlattenIterator.mk c i).ne ⟨c, j⟩ = decide (i ≠ j) := by
  by_cases h : i = j <;> simp [FlattenIterator.ne, FlattenIterator.eq, h]

theorem traverse_loop_spec {T : Type} (fv : FlattenedVector) (data : Jagged T)
    (htotal : fv.total_size = total_count data) (hfit : total_count data ≤ SIZE_MAX) :
    ∀ (fuel i : Nat), i ≤ total_count data → total_count data - i < fuel →
      traverse_loop fv data fuel ⟨fv.data, i⟩ = some (.ok (data.flatten.drop i)) := by
  intro fuel
  induction fuel with
  | zero => intro i _ h; omega
  | succ fuel ih =>
    intro i hi hfuel
    by_cases hend : i = total_count data
    · subst hend
      have hdrop : data.flatten.drop (total_count data) = [] := by
        rw [total_count_eq_length_flatten]; simp
      simp [traverse_loop, FlattenedVector.end_, htotal, ne_same_container, hdrop]
    · have hlt : i < total_count data := by omega
      obtain ⟨v, hv, hderef⟩ := deref_of_lt ⟨fv.data, i⟩ data hlt
      have hincr : (FlattenIterator.mk fv.data i).incr = ⟨fv.data, i + 1⟩ :=
        incr_of_lt _ (by simp only []; omega)
      have hrec := ih (i + 1) (by omega) (by omega)
      have hlen : i < data.flatten.length := by
        rw [← total_count_eq_length_flatten]; exact hlt
      have hget : data.flatten[i] = v := by
        rw [List.getElem?_eq_getElem hlen] at hv
        exact Option.some.inj hv
      have hdrop : data.flatten.drop i = v :: data.flatten.drop (i + 1) := by
        rw [← hget]; exact List.drop_eq_getElem_cons hlen
      simp [traverse_loop, FlattenedVector.end_, htotal, ne_same_container, hend, hderef,
        hincr, hrec, hdrop]

/-- Run of the minimum scan from a state in which `result` holds a least
element of the positions up to `first`. -/
theorem min_element_loop_spec {T : Type} [LinearOrder T] (c : Nat) (data : Jagged T)
    (hfit : total_count data ≤ SIZE_MAX) :
    ∀ (fuel f r : Nat) (vr : T), f < total_count data → r ≤ f →
      total_count data - f ≤ fuel → data.flatten[r]? = some vr →
      (∀ j x, j ≤ f → data.flatten[j]? = some x → vr ≤ x) →
      ∃ r' v, min_element_loop data ⟨c, total_count data⟩ fuel ⟨c, f⟩ ⟨c, r⟩ = some (.ok ⟨c, r'⟩) ∧
        r' < total_count data ∧ data.flatten[r']? = some v ∧ ∀ x ∈ data.flatten, v ≤ x := by
  intro fuel
  induction fuel with
  | zero => intro f r vr hf _ h; omega
  | succ fuel ih =>
    intro f r vr hf hr hfuel hvr hmin
    have hincr : (FlattenIterator.mk c f).incr = ⟨c, f + 1⟩ :=
      incr_of_lt _ (by simp only []; omega)
    by_cases hend : f + 1 = total_count data
    · refine ⟨r, vr, ?_, by omega, hvr, ?_⟩
      · simp [min_element_loop, hincr, ne_same_container, hend]
      · intro x hx
        obtain ⟨j, hj, hjx⟩ := List.getElem_of_mem hx
        rw [← total_count_eq_length_flatten] at hj
        exact hmin j x (by omega) (by rw [List.getElem?_eq_getElem, hjx])
    · have hlt : f + 1 < total_count data := by omega
      obtain ⟨a, ha, hda⟩ := deref_of_lt ⟨c, f + 1⟩ data hlt
      obtain ⟨b, hb, hdb⟩ := deref_of_lt ⟨c, r⟩ data (by simp only []; omega)
      have hbv : b = vr := by
        simp only [] at hb; rw [hvr] at hb; exact (Option.some.inj hb).symm
      subst hbv
      by_cases hab : a < b
      · obtain ⟨r', v, hrun, hr', hv, hall⟩ := ih (f + 1) (f + 1) a hlt (le_refl _) (by omega) ha
          (by
            intro j x hj hjx
            by_cases hjf : j ≤ f
            · exact le_trans (le_of_lt hab) (hmin j x hjf hjx)
            · have : j = f + 1 := by omega
              subst this
              simp only [] at ha
              rw [ha] at hjx
              exact le_of_eq (Option.some.inj hjx))
        exact ⟨r', v, by simp [min_element_loop, hincr, ne_same_container, hend, hda, hdb, hab, hrun],
          hr', hv, hall⟩
      · obtain ⟨r', v, hrun, hr', hv, hall⟩ := ih (f + 1) r b hlt (by omega) (by omega) hvr
          (by
            intro j x hj hjx
            by_cases hjf : j ≤ f
            · exact hmin j x hjf hjx
            · have : j = f + 1 := by omega
              subst this
              simp only [] at ha
              rw [ha] at hjx
              rw [← Option.some.inj hjx]
              exact not_lt.mp hab)
        exact ⟨r', v, by simp [min_element_loop, hincr, ne_same_container, hend, hda, hdb, hab, hrun],
          hr', hv, hall⟩


/-- Run of the maximum scan from a state in which `result` holds a greatest
element of the positions up to `first`. -/
theorem max_element_loop_spec {T : Type} [LinearOrder T] (c : Nat) (data : Jagged T)
    (hfit : total_count data ≤ SIZE_MAX) :
    ∀ (fuel f r : Nat) (vr : T), f < total_count data → r ≤ f →
      total_count data - f ≤ fuel → data.flatten[r]? = some vr →
      (∀ j x, j ≤ f → data.flatten[j]? = some x → x ≤ vr) →
      ∃ r' v, max_element_loop data ⟨c, total_count data⟩ fuel ⟨c, f⟩ ⟨c, r⟩ = some (.ok ⟨c, r'⟩) ∧
        r' < total_count data ∧ data.flatten[r']? = some v ∧ ∀ x ∈ data.flatten, x ≤ v := by
  intro fuel
  induction fuel with
  | zero => intro f r vr hf _ h; omega
  | succ fuel ih =>
    intro f r vr hf hr hfuel hvr hmax
    have hincr : (FlattenIterator.mk c f).incr = ⟨c, f + 1⟩ :=
      incr_of_lt _ (by simp only []; omega)
    by_cases hend : f + 1 = total_count data
    · refine ⟨r, vr, ?_, by omega, hvr, ?_⟩
      · simp [max_element_loop, hincr, ne_same_container, hend]
      · intro x hx
        obtain ⟨j, hj, hjx⟩ := List.getElem_of_mem hx
        rw [← total_count_eq_length_flatten] at hj
        exact hmax j x (by omega) (by rw [List.getElem?_eq_getElem, hjx])
    · have hlt : f + 1 < total_count data := by omega
      obtain ⟨a, ha, hda⟩ := deref_of_lt ⟨c, f + 1⟩ data hlt
      obtain ⟨b, hb, hdb⟩ := deref_of_lt ⟨c, r⟩ data (by simp only []; omega)
      have hbv : b = vr := by
        simp only [] at hb; rw [hvr] at hb; exact (Option.some.inj hb).symm
      subst hbv
      by_cases hab : b < a
      · obtain ⟨r', v, hrun, hr', hv, hall⟩ := ih (f + 1) (f + 1) a hlt (le_refl _) (by omega) ha
          (by
            intro j x hj hjx
            by_cases hjf : j ≤ f
            · exact le_trans (hmax j x hjf hjx) (le_of_lt hab)
            · have : j = f + 1 := by omega
              subst this
              simp only [] at ha
              rw [ha] at hjx
              exact le_of_eq (Option.some.inj hjx).symm)
        exact ⟨r', v, by simp [max_element_loop, hincr, ne_same_container, hend, hda, hdb, hab, hrun],
          hr', hv, hall⟩
      · obtain ⟨r', v, hrun, hr', hv, hall⟩ := ih (f + 1) r b hlt (by omega) (by omega) hvr
          (by
            intro j x hj hjx
            by_cases hjf : j ≤ f
            · exact hmax j x hjf hjx
            · have : j = f + 1 := by omega
              subst this
              simp only [] at ha
              rw [ha] at hjx
              rw [← Option.some.inj hjx]
              exact not_lt.mp hab)
        exact ⟨r', v, by simp [max_element_loop, hincr, ne_same_container, hend, hda, hdb, hab, hrun],
          hr', hv, hall⟩

/-- Running a procedure through the cursors behaves as running it on the
concatenation held in one array: same failures, and on success the same
final concatenation in an unchanged shape. -/
theorem run_simulates_array {T : Type} (c : Nat) (p : CursorProg T) :
    ∀ data : Jagged T,
      (∀ ys, p.run_array data.flatten = .ok ys →
        ∃ data', p.run c data = .ok data' ∧ shape data' = shape data ∧ data'.flatten = ys) ∧
      (∀ e, p.run_array data.flatten = .error e → p.run c data = .error e) := by
  induction p with
  | done =>
    intro data
    constructor
    · intro ys h
      simp only [CursorProg.run_array, Except.ok.injEq] at h
      exact ⟨data, rfl, rfl, h⟩
    · intro e h
      simp [CursorProg.run_array] at h
  | read i k ih =>
    intro data
    by_cases hi : i < total_count data
    · obtain ⟨v, hv, hd⟩ := deref_of_lt ⟨c, i⟩ data hi
      simp only [] at hv
      simp only [CursorProg.run_array, CursorProg.run, hv, hd]
      exact ih v data
    · have hd := deref_of_ge (T := T) ⟨c, i⟩ data (by simp only []; omega)
      have hnone : data.flatten[i]? = none := by
        rw [List.getElem?_eq_none_iff, ← total_count_eq_length_flatten]; omega
      simp only [CursorProg.run_array, CursorProg.run, hnone, hd]
      constructor
      · intro ys h; simp at h
      · intro e h; simpa using h
  | write i v k ih =>
    intro data
    by_cases hi : i < total_count data
    · obtain ⟨data', ha, hs, hf⟩ := assign_of_lt ⟨c, i⟩ data v hi
      simp only [] at hf
      have hlen : i < data.flatten.length := by
        rw [← total_count_eq_length_flatten]; exact hi
      simp only [CursorProg.run_array, CursorProg.run, ha, hlen, if_true, ← hf]
      obtain ⟨h1, h2⟩ := ih data'
      refine ⟨?_, h2⟩
      intro ys h
      obtain ⟨d, hd1, hd2, hd3⟩ := h1 ys h
      exact ⟨d, hd1, hd2.trans hs, hd3⟩
    · have ha := assign_of_ge ⟨c, i⟩ data v (by simp only []; omega)
      have hlen : ¬ i < data.flatten.length := by
        rw [← total_count_eq_length_flatten]; exact hi
      simp only [CursorProg.run_array, CursorProg.run, ha, hlen, if_false]
      constructor
      · intro ys h; simp at h
      · intro e h; simpa using h

theorem total_count_eq_zero {T : Type} (data : Jagged T)
    (h : data = [] ∨ ∀ row ∈ data, row = []) : total_count data = 0 := by
  rw [total_count_eq_length_flatten, List.length_eq_zero, List.flatten_eq_nil_iff]
  rcases h with h | h
  · subst h; simp
  · exact h

theorem shape_getD {T : Type} (data : Jagged T) (o : Nat) :
    (shape data).getD o 0 = (data.getD o []).length := by
  simp only [shape, List.getD_eq_getElem?_getD, List.getElem?_map]
  cases data[o]? <;> rfl


theorem eq_of_shape_of_flatten {T : Type} (d : Jagged T) :
    ∀ d' : Jagged T, shape d = shape d' → d.flatten = d'.flatten → d = d' := by
  induction d with
  | nil =>
    intro d' hs _
    cases d' with
    | nil => rfl
    | cons r rs => simp [shape] at hs
  | cons r rs ih =>
    intro d' hs hf
    cases d' with
    | nil => simp [shape] at hs
    | cons r' rs' =>
      simp only [shape, List.map_cons, List.cons.injEq] at hs
      simp only [List.flatten_cons] at hf
      obtain ⟨h1, h2⟩ := List.append_inj hf hs.1
      rw [h1, ih rs' hs.2 h2]

/-- A sort called on the full range of a view reaches, through the cursors,
the result it reaches on the concatenation held in one array. -/
theorem sort_range_full {T : Type} (sort : Nat → Nat → CursorProg T) (ptr : Nat)
    (data : Jagged T) (sorted : List T) (hfit : total_count data ≤ SIZE_MAX)
    (hrun : (sort 0 data.flatten.length).run_array data.flatten = .ok sorted) :
    ∃ data', sort_range sort (FlattenedVector.construct ptr data).begin
        (FlattenedVector.construct ptr data).end_ data = .ok data' ∧
      shape data' = shape data ∧ data'.flatten = sorted := by
  have hsize := construct_total_size_of_le ptr data hfit
  simp only [sort_range, FlattenedVector.begin, FlattenedVector.end_, hsize,
    total_count_eq_length_flatten]
  exact (run_simulates_array _ _ data).1 sorted hrun

theorem to_difference_type_of_le (x : Nat) (h : x ≤ PTRDIFF_MAX) :
    to_difference_type x = (x : Int) := by
  simp only [to_difference_type, SIZE_MOD, PTRDIFF_MAX] at h ⊢
  split <;> omega

theorem distance_of_range (a b : FlattenIterator) (d : Int)
    (hd : to_difference_type a.global_index - to_difference_type b.global_index = d)
    (hlo : -(2 ^ 63) ≤ d) (hhi : d < 2 ^ 63) :
    a.distance b = .ok d := by
  have hcond : -(2 ^ 63 : Int) ≤ d ∧ d ≤ (PTRDIFF_MAX : Int) := by
    simp only [PTRDIFF_MAX]
    omega
  simp only [FlattenIterator.distance, hd, if_pos hcond]

theorem distance_begin (c n : Nat) (h : n ≤ PTRDIFF_MAX) :
    (FlattenIterator.mk c n).distance ⟨c, 0⟩ = .ok (n : Int) := by
  have h0 : (0 : Nat) ≤ PTRDIFF_MAX := Nat.zero_le _
  apply distance_of_range
  · simp only [to_difference_type_of_le n h, to_difference_type_of_le 0 h0]
    simp
  · omega
  · simp only [PTRDIFF_MAX] at h
    omega


/-! ## The coordinate resolver -/

/-- C1: for every container and every logical index `i` below the sum of the
inner lengths, `locate` returns a coordinate `(outer, inner)` with `outer`
below the number of inner sequences, `inner` below the length of inner
sequence `outer`, and the lengths before `outer` plus `inner` equal to `i`;
the element at that coordinate is the `i`-th element of the concatenation of
the inner sequences in outer order. -/
theorem locate_resolves_valid_index {T : Type} (data : Jagged T) (i : Nat)
    (h : i < total_count data) :
    ∃ outer inner, locate data i = .ok (outer, inner) ∧
      outer < (shape data).length ∧ inner < (shape data).getD outer 0 ∧
      ((shape data).take outer).sum + inner = i ∧
      ∃ v, read_at data (outer, inner) = .ok v ∧ data.flatten[i]? = some v := by
  obtain ⟨o, n, hloc, hres⟩ := locate_ok data i h
  obtain ⟨v, hv, hread⟩ := read_at_of_resolves hres
  refine ⟨o, n, hloc, ?_, ?_, hres.offset, v, hread, hv⟩
  · simpa [shape] using hres.outer_lt
  · rw [shape_getD]; exact hres.inner_lt

/-- Instance of C1 on the container of `main`: logical index 7 lies in the
fourth inner sequence, at inner index 1, where the element is 6. -/
theorem locate_resolves_valid_index_witness :
    7 < total_count example_data ∧
    ∃ outer inner, locate example_data 7 = .ok (outer, inner) ∧
      outer < (shape example_data).length ∧ inner < (shape example_data).getD outer 0 ∧
      ((shape example_data).take outer).sum + inner = 7 ∧
      ∃ v, read_at example_data (outer, inner) = .ok v ∧ example_data.flatten[7]? = some v :=
  ⟨by decide, locate_resolves_valid_index example_data 7 (by decide)⟩

/-- C2: `locate`, and with it the dereference of a cursor, fails exactly when
the logical index is not below the sum of the inner lengths, and then with the
out-of-range error and no other; so it fails at the end sentinel, and at every
index when the container has no inner sequence or only empty ones. -/
theorem locate_fails_iff_out_of_range {T : Type} (data : Jagged T) (c i : Nat) :
    (∀ e, locate data i = .error e ↔ (e = .out_of_range ∧ total_count data ≤ i)) ∧
    (∀ e, (FlattenIterator.mk c i).deref data = .error e ↔
      (e = .out_of_range ∧ total_count data ≤ i)) ∧
    locate data (total_count data) = .error .out_of_range ∧
    ((data = [] ∨ ∀ row ∈ data, row = []) →
      locate data i = .error .out_of_range ∧
      (FlattenIterator.mk c i).deref data = .error .out_of_range) := by
  refine ⟨?_, ?_, locate_error data _ (le_refl _), ?_⟩
  · intro e
    by_cases hi : i < total_count data
    · obtain ⟨o, n, hloc, _⟩ := locate_ok data i hi
      simp only [hloc]
      constructor
      · intro h; cases h
      · intro h; omega
    · have hge : total_count data ≤ i := by omega
      rw [locate_error data i hge]
      constructor
      · intro h; cases h; exact ⟨rfl, hge⟩
      · intro h; rw [h.1]
  · intro e
    by_cases hi : i < total_count data
    · obtain ⟨v, _, hd⟩ := deref_of_lt ⟨c, i⟩ data hi
      rw [hd]
      constructor
      · intro h; cases h
      · intro h; omega
    · have hge : total_count data ≤ i := by omega
      rw [deref_of_ge ⟨c, i⟩ data hge]
      constructor
      · intro h; cases h; exact ⟨rfl, hge⟩
      · intro h; rw [h.1]
  · intro hempty
    have h0 := total_count_eq_zero data hempty
    exact ⟨locate_error data i (by omega), deref_of_ge ⟨c, i⟩ data (by simp only []; omega)⟩

/-- Instance of C2 on a container of two empty inner sequences: index 0 fails
with the out-of-range error, in `locate` and in the dereference. -/
theorem locate_fails_iff_out_of_range_witness :
    locate ([[], []] : Jagged Int) 0 = .error .out_of_range ∧
    (FlattenIterator.mk 0 0).deref ([[], []] : Jagged Int) = .error .out_of_range :=
  (locate_fails_iff_out_of_range ([[], []] : Jagged Int) 0 0).2.2.2 (Or.inr (by decide))

/-- C3: on the logical indices below the sum of the inner lengths, `locate`
is a bijection onto the coordinates `(outer, inner)` with `outer` below the
number of inner sequences and `inner` below the length of inner sequence
`outer`: it takes its values among them, distinct indices give distinct
coordinates, and every such coordinate is the value at a valid index. -/
theorem locate_bijective {T : Type} (data : Jagged T) :
    (∀ i, i < total_count data →
      ∃ outer inner, locate data i = .ok (outer, inner) ∧
        outer < (shape data).length ∧ inner < (shape data).getD outer 0) ∧
    (∀ i j, i < total_count data → j < total_count data →
      locate data i = locate data j → i = j) ∧
    (∀ outer inner, outer < (shape data).length → inner < (shape data).getD outer 0 →
      ∃ i, i < total_count data ∧ locate data i = .ok (outer, inner)) := by
  refine ⟨?_, ?_, ?_⟩
  · intro i hi
    obtain ⟨o, n, hloc, hres⟩ := locate_ok data i hi
    refine ⟨o, n, hloc, ?_, ?_⟩
    · simpa [shape] using hres.outer_lt
    · rw [shape_getD]; exact hres.inner_lt
  · intro i j hi hj hij
    obtain ⟨o, n, hloc, hres⟩ := locate_ok data i hi
    obtain ⟨o', n', hloc', hres'⟩ := locate_ok data j hj
    rw [hloc, hloc'] at hij
    simp only [Except.ok.injEq, Prod.mk.injEq] at hij
    rw [← hres.offset, ← hres'.offset, hij.1, hij.2]
  · intro o n ho hn
    have ho' : o < data.length := by simpa [shape] using ho
    rw [shape_getD] at hn
    have hloc : locate data (((shape data).take o).sum + n) = .ok (o, n) := by
      have := locate_loop_of_coordinate data 0 o n ho' hn
      simpa [locate] using this
    refine ⟨((shape data).take o).sum + n, ?_, hloc⟩
    by_contra hge
    rw [locate_error data _ (by omega)] at hloc
    cases hloc

/-- Instance of C3 on the container of `main`: indices 2 and 3 resolve to
different coordinates, and the coordinate `(3, 1)` is reached from an index
below 10. -/
theorem locate_bijective_witness :
    (locate example_data 2 = locate example_data 3 → 2 = 3) ∧
    ∃ i, i < total_count example_data ∧ locate example_data i = .ok (3, 1) :=
  ⟨(locate_bijective example_data).2.1 2 3 (by decide) (by decide),
   (locate_bijective example_data).2.2 3 1 (by decide) (by decide)⟩

/-! ## The view and its range -/

/-- C4: for every container (of fewer than `2 ^ 64` elements, as any container
held in memory), the traversal of a view built over it, from `begin()` until
the cursor equals `end()`, dereferencing and then advancing by one, returns
once given more fuel than there are elements; no dereference fails and the
values visited are the concatenation of the inner sequences in outer order.
For the container of `main` these are 3,1,4,1,5,9,2,6,5,3, ten elements. -/
theorem traverse_visits_concatenation {T : Type} (ptr : Nat) (data : Jagged T) (fuel : Nat)
    (hfit : total_count data ≤ SIZE_MAX) (hfuel : total_count data < fuel) :
    traverse fuel (FlattenedVector.construct ptr data) data = some (.ok data.flatten) ∧
    traverse 11 (FlattenedVector.construct ptr example_data) example_data
      = some (.ok [3, 1, 4, 1, 5, 9, 2, 6, 5, 3]) ∧
    ([3, 1, 4, 1, 5, 9, 2, 6, 5, 3] : List Int).length = 10 := by
  have key : ∀ (U : Type) (d : Jagged U) (n : Nat), total_count d ≤ SIZE_MAX →
      total_count d < n →
      traverse n (FlattenedVector.construct ptr d) d = some (.ok d.flatten) := by
    intro U d n h1 h2
    have hsize := construct_total_size_of_le ptr d h1
    have := traverse_loop_spec (FlattenedVector.construct ptr d) d hsize h1 n 0
      (Nat.zero_le _) (by omega)
    simpa [traverse, FlattenedVector.begin] using this
  refine ⟨key T data fuel hfit hfuel, ?_, rfl⟩
  exact key Int example_data 11 (by decide) (by decide)

/-- Instance of C4 on a three-row container with an empty middle row. -/
theorem traverse_visits_concatenation_witness :
    total_count ([[2, 1], [], [0]] : Jagged Int) ≤ SIZE_MAX ∧
    total_count ([[2, 1], [], [0]] : Jagged Int) < 4 ∧
    traverse 4 (FlattenedVector.construct 0 ([[2, 1], [], [0]] : Jagged Int))
      ([[2, 1], [], [0]] : Jagged Int) = some (.ok [2, 1, 0]) :=
  ⟨by decide, by decide,
   (traverse_visits_concatenation 0 ([[2, 1], [], [0]] : Jagged Int) 4 (by decide)
      (by decide)).1⟩

/-- C5: for every container (of at most `PTRDIFF_MAX` elements, as any
container held in memory), a view constructed over it has the sum of the
inner lengths as its element count: `begin()` has logical index 0, `end()`
has logical index that sum, and `end() - begin()` is that sum; the count is 0
when there is no inner sequence or all inner sequences are empty. -/
theorem view_total_count {T : Type} (ptr : Nat) (data : Jagged T)
    (hfit : total_count data ≤ PTRDIFF_MAX) :
    (FlattenedVector.construct ptr data).total_size = total_count data ∧
    (FlattenedVector.construct ptr data).begin.global_index = 0 ∧
    (FlattenedVector.construct ptr data).end_.global_index = total_count data ∧
    (FlattenedVector.construct ptr data).end_.distance (FlattenedVector.construct ptr data).begin
      = .ok (total_count data : Int) ∧
    ((data = [] ∨ ∀ row ∈ data, row = []) →
      (FlattenedVector.construct ptr data).total_size = 0) := by
  have hle : total_count data ≤ SIZE_MAX := by
    simp only [PTRDIFF_MAX, SIZE_MAX] at hfit ⊢
    omega
  have hsize := construct_total_size_of_le ptr data hle
  refine ⟨hsize, rfl, hsize, ?_, ?_⟩
  · have := distance_begin ptr (total_count data) hfit
    simp only [FlattenedVector.begin, FlattenedVector.end_, hsize]
    exact this
  · intro hempty
    rw [hsize, total_count_eq_zero data hempty]

/-- Instance of C5 on the container of `main`, whose view spans ten
elements. -/
theorem view_total_count_witness :
    total_count example_data ≤ PTRDIFF_MAX ∧
    (FlattenedVector.construct 0 example_data).end_.global_index = 10 ∧
    (FlattenedVector.construct 0 example_data).end_.distance
      (FlattenedVector.construct 0 example_data).begin = .ok 10 :=
  ⟨by decide, (view_total_count 0 example_data (by decide)).2.2.1,
   (view_total_count 0 example_data (by decide)).2.2.2.1⟩


/-! ## Algorithms over the range -/

/-- C6: for every container of totally ordered elements (fewer than `2 ^ 64`
of them), an in-place sort called on the full cursor range
`[begin(), end())`, touching the elements through cursor dereference only,
that on the concatenation held in one array ends with a non-decreasing
permutation of it, ends through the cursors too: it leaves the vector of
inner lengths unchanged and makes the concatenation of the inner sequences
that non-decreasing permutation of the original concatenation. -/
theorem sort_through_cursors {T : Type} [LinearOrder T] (sort : Nat → Nat → CursorProg T)
    (ptr : Nat) (data : Jagged T) (sorted : List T)
    (hfit : total_count data ≤ SIZE_MAX)
    (hrun : (sort 0 data.flatten.length).run_array data.flatten = .ok sorted)
    (hsorted : sorted.Sorted (· ≤ ·)) (hperm : sorted.Perm data.flatten) :
    ∃ data', sort_range sort (FlattenedVector.construct ptr data).begin
        (FlattenedVector.construct ptr data).end_ data = .ok data' ∧
      shape data' = shape data ∧
      data'.flatten.Sorted (· ≤ ·) ∧ data'.flatten.Perm data.flatten := by
  obtain ⟨data', hrun', hshape, hflat⟩ := sort_range_full sort ptr data sorted hfit hrun
  exact ⟨data', hrun', hshape, by rw [hflat]; exact hsorted, by rw [hflat]; exact hperm⟩

/-- Instance of C6: insertion sort over the cursors of a three-row container
with an empty middle row. -/
theorem sort_through_cursors_witness :
    total_count ([[2, 1], [], [0]] : Jagged Int) ≤ SIZE_MAX ∧
    (insertion_sort 0 ([[2, 1], [], [0]] : Jagged Int).flatten.length).run_array
      ([[2, 1], [], [0]] : Jagged Int).flatten = .ok [0, 1, 2] ∧
    ([0, 1, 2] : List Int).Sorted (· ≤ ·) ∧
    ([0, 1, 2] : List Int).Perm ([[2, 1], [], [0]] : Jagged Int).flatten ∧
    ∃ data', sort_range insertion_sort
        (FlattenedVector.construct 0 ([[2, 1], [], [0]] : Jagged Int)).begin
        (FlattenedVector.construct 0 ([[2, 1], [], [0]] : Jagged Int)).end_
        ([[2, 1], [], [0]] : Jagged Int) = .ok data' ∧
      shape data' = shape ([[2, 1], [], [0]] : Jagged Int) ∧
      data'.flatten.Sorted (· ≤ ·) ∧
      data'.flatten.Perm ([[2, 1], [], [0]] : Jagged Int).flatten :=
  ⟨by decide, by decide, by decide, by decide,
   sort_through_cursors insertion_sort 0 ([[2, 1], [], [0]] : Jagged Int) [0, 1, 2]
     (by decide) (by decide) (by decide) (by decide)⟩

/-- C7, as stated, fails: insertion sort over the full cursor range of the
container of `main` ends with the inner sequences
`[1,1,2] [] [3,3,4] [5,5,6,9] []`, whose concatenation has ten elements, and
no run of any in-place procedure over that range ends with inner lengths
`[3,0,3,4,0]` and the nine-element concatenation 1,1,2,3,3,4,5,5,6. -/
theorem sorted_example_has_ten_elements :
    sort_range insertion_sort (FlattenedVector.construct 0 example_data).begin
        (FlattenedVector.construct 0 example_data).end_ example_data
      = .ok [[1, 1, 2], [], [3, 3, 4], [5, 5, 6, 9], []] ∧
    ¬ ∃ (sort : Nat → Nat → CursorProg Int) (ptr : Nat) (data' : Jagged Int),
        sort_range sort (FlattenedVector.construct ptr example_data).begin
          (FlattenedVector.construct ptr example_data).end_ example_data = .ok data' ∧
        shape data' = [3, 0, 3, 4, 0] ∧
        data'.flatten = [1, 1, 2, 3, 3, 4, 5, 5, 6] := by
  refine ⟨by decide, ?_⟩
  rintro ⟨_, _, data', _, hshape, hflat⟩
  have h1 : total_count data' = 10 := by simp [total_count, hshape]
  rw [total_count_eq_length_flatten, hflat] at h1
  simp at h1

/-- C7, amended: an in-place sort called on the full cursor range of the
container of `main`, that on the array 3,1,4,1,5,9,2,6,5,3 ends with a
non-decreasing permutation of it, ends through the cursors with inner lengths
`[3,0,3,4,0]` and concatenation 1,1,2,3,3,4,5,5,6,9, that is with the inner
sequences `[1,1,2] [] [3,3,4] [5,5,6,9] []`. -/
theorem sort_example (sort : Nat → Nat → CursorProg Int) (ptr : Nat) (sorted : List Int)
    (hrun : (sort 0 10).run_array [3, 1, 4, 1, 5, 9, 2, 6, 5, 3] = .ok sorted)
    (hsorted : sorted.Sorted (· ≤ ·)) (hperm : sorted.Perm [3, 1, 4, 1, 5, 9, 2, 6, 5, 3]) :
    ∃ data', sort_range sort (FlattenedVector.construct ptr example_data).begin
        (FlattenedVector.construct ptr example_data).end_ example_data = .ok data' ∧
      shape data' = [3, 0, 3, 4, 0] ∧
      data'.flatten = [1, 1, 2, 3, 3, 4, 5, 5, 6, 9] ∧
      data' = [[1, 1, 2], [], [3, 3, 4], [5, 5, 6, 9], []] := by
  obtain ⟨data', hrun', hshape, hflat⟩ :=
    sort_range_full sort ptr example_data sorted (by decide) hrun
  have hval : sorted = [1, 1, 2, 3, 3, 4, 5, 5, 6, 9] :=
    List.eq_of_perm_of_sorted (hperm.trans (by decide)) hsorted (by decide)
  have hshape' : shape data' = [3, 0, 3, 4, 0] := hshape
  have hflat' : data'.flatten = [1, 1, 2, 3, 3, 4, 5, 5, 6, 9] := hflat.trans hval
  refine ⟨data', hrun', hshape', hflat', ?_⟩
  exact eq_of_shape_of_flatten data' [[1, 1, 2], [], [3, 3, 4], [5, 5, 6, 9], []]
    (by rw [hshape']; rfl) (by rw [hflat']; rfl)

/-- Instance of amended C7 with insertion sort as the sort. -/
theorem sort_example_witness :
    (insertion_sort 0 10).run_array [3, 1, 4, 1, 5, 9, 2, 6, 5, 3]
      = .ok ([1, 1, 2, 3, 3, 4, 5, 5, 6, 9] : List Int) ∧
    ∃ data', sort_range insertion_sort (FlattenedVector.construct 0 example_data).begin
        (FlattenedVector.construct 0 example_data).end_ example_data = .ok data' ∧
      shape data' = [3, 0, 3, 4, 0] ∧
      data'.flatten = [1, 1, 2, 3, 3, 4, 5, 5, 6, 9] ∧
      data' = [[1, 1, 2], [], [3, 3, 4], [5, 5, 6, 9], []] :=
  ⟨by decide,
   sort_example insertion_sort 0 [1, 1, 2, 3, 3, 4, 5, 5, 6, 9] (by decide) (by decide)
     (by decide)⟩

/-- C8: for every container with at least one element (and fewer than
`2 ^ 64`), the linear minimum scan and the linear maximum scan over
`[begin(), end())` return, once given as much fuel as there are elements, a
cursor whose dereference succeeds and gives a least, respectively greatest,
element of the concatenation of the inner sequences; for the container of
`main` these are 1 and 9. -/
theorem min_max_scan {T : Type} [LinearOrder T] (ptr : Nat) (data : Jagged T) (fuel : Nat)
    (hne : 0 < total_count data) (hfit : total_count data ≤ SIZE_MAX)
    (hfuel : total_count data ≤ fuel) :
    (∃ it v, min_element fuel data (FlattenedVector.construct ptr data).begin
        (FlattenedVector.construct ptr data).end_ = some (.ok it) ∧
      it.deref data = .ok v ∧ v ∈ data.flatten ∧ ∀ x ∈ data.flatten, v ≤ x) ∧
    (∃ it v, max_element fuel data (FlattenedVector.construct ptr data).begin
        (FlattenedVector.construct ptr data).end_ = some (.ok it) ∧
      it.deref data = .ok v ∧ v ∈ data.flatten ∧ ∀ x ∈ data.flatten, x ≤ v) ∧
    (∃ it, min_element 10 example_data (FlattenedVector.construct ptr example_data).begin
        (FlattenedVector.construct ptr example_data).end_ = some (.ok it) ∧
      it.deref example_data = .ok 1) ∧
    (∃ it, max_element 10 example_data (FlattenedVector.construct ptr example_data).begin
        (FlattenedVector.construct ptr example_data).end_ = some (.ok it) ∧
      it.deref example_data = .ok 9) := by
  have hsize := construct_total_size_of_le ptr data hfit
  have hsize' : (FlattenedVector.construct ptr example_data).total_size = 10 :=
    construct_total_size_of_le ptr example_data (by decide)
  have hptr : ∀ (U : Type) (d : Jagged U), (FlattenedVector.construct ptr d).data = ptr :=
    fun _ _ => rfl
  obtain ⟨v0, hv0, _⟩ := deref_of_lt ⟨ptr, 0⟩ data hne
  simp only [] at hv0
  have hfirst : (FlattenIterator.mk ptr 0).eq ⟨ptr, total_count data⟩ = false := by
    have : ¬ (0 = total_count data) := by omega
    simp [FlattenIterator.eq, this]
  have hbase : ∀ j x, j ≤ 0 → data.flatten[j]? = some x → x = v0 := by
    intro j x hj hx
    have : j = 0 := by omega
    subst this
    rw [hv0] at hx
    exact (Option.some.inj hx).symm
  refine ⟨?_, ?_, ?_, ?_⟩
  · obtain ⟨r, v, hrun, hr, hv, hall⟩ :=
      min_element_loop_spec ptr data hfit fuel 0 0 v0 hne (le_refl _) (by omega) hv0
        (fun j x hj hx => le_of_eq (hbase j x hj hx).symm)
    obtain ⟨w, hw, hd⟩ := deref_of_lt ⟨ptr, r⟩ data hr
    simp only [] at hw
    rw [hv] at hw
    cases hw
    refine ⟨⟨ptr, r⟩, v, ?_, hd, List.mem_iff_getElem?.mpr ⟨r, hv⟩, hall⟩
    simp only [min_element, FlattenedVector.begin, FlattenedVector.end_, hsize, hptr]
    rw [hfirst]
    exact hrun
  · obtain ⟨r, v, hrun, hr, hv, hall⟩ :=
      max_element_loop_spec ptr data hfit fuel 0 0 v0 hne (le_refl _) (by omega) hv0
        (fun j x hj hx => le_of_eq (hbase j x hj hx))
    obtain ⟨w, hw, hd⟩ := deref_of_lt ⟨ptr, r⟩ data hr
    simp only [] at hw
    rw [hv] at hw
    cases hw
    refine ⟨⟨ptr, r⟩, v, ?_, hd, List.mem_iff_getElem?.mpr ⟨r, hv⟩, hall⟩
    simp only [max_element, FlattenedVector.begin, FlattenedVector.end_, hsize, hptr]
    rw [hfirst]
    exact hrun
  · refine ⟨⟨ptr, 1⟩, ?_, rfl⟩
    simp only [FlattenedVector.begin, FlattenedVector.end_, hsize', hptr]
    simp [min_element, min_element_loop, FlattenIterator.eq, FlattenIterator.ne,
      FlattenIterator.incr, FlattenIterator.deref, locate, locate_loop, read_at, example_data,
      SIZE_MOD]
  · refine ⟨⟨ptr, 5⟩, ?_, rfl⟩
    simp only [FlattenedVector.begin, FlattenedVector.end_, hsize', hptr]
    simp [max_element, max_element_loop, FlattenIterator.eq, FlattenIterator.ne,
      FlattenIterator.incr, FlattenIterator.deref, locate, locate_loop, read_at, example_data,
      SIZE_MOD]

/-- Instance of C8 on a three-row container with an empty middle row: the
minimum scan ends on the cursor at index 2 (value 0), the maximum scan on the
cursor at index 0 (value 2). -/
theorem min_max_scan_witness :
    0 < total_count ([[2, 1], [], [0]] : Jagged Int) ∧
    (∃ it v, min_element 3 ([[2, 1], [], [0]] : Jagged Int)
        (FlattenedVector.construct 0 ([[2, 1], [], [0]] : Jagged Int)).begin
        (FlattenedVector.construct 0 ([[2, 1], [], [0]] : Jagged Int)).end_ = some (.ok it) ∧
      it.deref ([[2, 1], [], [0]] : Jagged Int) = .ok v ∧
      v ∈ ([[2, 1], [], [0]] : Jagged Int).flatten ∧
      ∀ x ∈ ([[2, 1], [], [0]] : Jagged Int).flatten, v ≤ x) :=
  ⟨by decide,
   (min_max_scan 0 ([[2, 1], [], [0]] : Jagged Int) 3 (by decide) (by decide) (by decide)).1⟩


/-! ## Edge case and writes -/

/-- C9: for every container with no inner sequence, or whose inner sequences
are all empty, the view built over it has `begin() == end()`, and the
dereference of `begin()` and the dereference of `end()` both fail with the
out-of-range error. -/
theorem empty_view_begin_eq_end {T : Type} (ptr : Nat) (data : Jagged T)
    (hempty : data = [] ∨ ∀ row ∈ data, row = []) :
    (FlattenedVector.construct ptr data).begin.eq (FlattenedVector.construct ptr data).end_
      = true ∧
    (FlattenedVector.construct ptr data).begin.deref data = .error .out_of_range ∧
    (FlattenedVector.construct ptr data).end_.deref data = .error .out_of_range := by
  have h0 := total_count_eq_zero data hempty
  have hsize : (FlattenedVector.construct ptr data).total_size = 0 := by
    rw [construct_total_size, h0]; rfl
  refine ⟨?_, ?_, ?_⟩
  · simp [FlattenIterator.eq, FlattenedVector.begin, FlattenedVector.end_, hsize]
  · exact deref_of_ge _ data (by rw [h0]; exact Nat.zero_le _)
  · exact deref_of_ge _ data (by rw [h0]; exact Nat.zero_le _)

/-- Instance of C9 on a container with no inner sequence and on one of three
empty inner sequences. -/
theorem empty_view_begin_eq_end_witness :
    ((FlattenedVector.construct 0 ([] : Jagged Int)).begin.eq
        (FlattenedVector.construct 0 ([] : Jagged Int)).end_ = true ∧
      (FlattenedVector.construct 0 ([] : Jagged Int)).begin.deref ([] : Jagged Int)
        = .error .out_of_range ∧
      (FlattenedVector.construct 0 ([] : Jagged Int)).end_.deref ([] : Jagged Int)
        = .error .out_of_range) ∧
    ((FlattenedVector.construct 0 ([[], [], []] : Jagged Int)).begin.eq
        (FlattenedVector.construct 0 ([[], [], []] : Jagged Int)).end_ = true ∧
      (FlattenedVector.construct 0 ([[], [], []] : Jagged Int)).begin.deref
        ([[], [], []] : Jagged Int) = .error .out_of_range ∧
      (FlattenedVector.construct 0 ([[], [], []] : Jagged Int)).end_.deref
        ([[], [], []] : Jagged Int) = .error .out_of_range) :=
  ⟨empty_view_begin_eq_end 0 ([] : Jagged Int) (Or.inl rfl),
   empty_view_begin_eq_end 0 ([[], [], []] : Jagged Int) (Or.inr (by decide))⟩

/-- C10: assigning a value `v` through the dereference of a cursor at a
logical index `i` below the sum of the inner lengths succeeds and gives a
container with the same number of inner sequences and the same inner lengths,
whose concatenation is the old one with position `i` replaced by `v` and every
other position unchanged; the dereference at index `i` then reads `v`. -/
theorem assign_changes_one_position {T : Type} (it : FlattenIterator) (data : Jagged T) (v : T)
    (h : it.global_index < total_count data) :
    ∃ data', it.assign data v = .ok data' ∧
      data'.length = data.length ∧ shape data' = shape data ∧
      data'.flatten = data.flatten.set it.global_index v ∧
      data'.flatten[it.global_index]? = some v ∧
      (∀ j, j ≠ it.global_index → data'.flatten[j]? = data.flatten[j]?) ∧
      it.deref data' = .ok v := by
  obtain ⟨data', ha, hs, hf⟩ := assign_of_lt it data v h
  have hlen : it.global_index < data.flatten.length := by
    rw [← total_count_eq_length_flatten]; exact h
  have hcount : total_count data' = total_count data := by
    simp only [total_count, hs]
  have hget : data'.flatten[it.global_index]? = some v := by
    rw [hf, List.getElem?_set, if_pos rfl, if_pos hlen]
  refine ⟨data', ha, ?_, hs, hf, hget, ?_, ?_⟩
  · have := congrArg List.length hs
    simpa [shape] using this
  · intro j hj
    rw [hf, List.getElem?_set]
    simp [Ne.symm hj]
  · obtain ⟨w, hw, hd⟩ := deref_of_lt it data' (by rw [hcount]; exact h)
    rw [hget] at hw
    cases hw
    exact hd

/-- Instance of C10 on the container of `main`: assigning 7 at logical index
4 changes the middle element of the third inner sequence only. -/
theorem assign_changes_one_position_witness :
    4 < total_count example_data ∧
    (FlattenIterator.mk 0 4).assign example_data 7
      = .ok [[3, 1, 4], [], [1, 7, 9], [2, 6, 5, 3], []] ∧
    ∃ data', (FlattenIterator.mk 0 4).assign example_data 7 = .ok data' ∧
      data'.length = example_data.length ∧ shape data' = shape example_data ∧
      data'.flatten = example_data.flatten.set 4 7 ∧
      data'.flatten[4]? = some 7 ∧
      (∀ j, j ≠ 4 → data'.flatten[j]? = example_data.flatten[j]?) ∧
      (FlattenIterator.mk 0 4).deref data' = .ok 7 :=
  ⟨by decide, by decide, assign_changes_one_position ⟨0, 4⟩ example_data 7 (by decide)⟩


/-! ## Lemmas on machine arithmetic -/

theorem to_size_t_lt (n : Int) : to_size_t n < SIZE_MOD := by
  simp only [to_size_t, SIZE_MOD]
  omega

theorem to_size_t_cast (n : Int) : ((to_size_t n : Nat) : Int) = n % (SIZE_MOD : Int) := by
  simp only [to_size_t, SIZE_MOD]
  omega

theorem to_difference_type_emod (x : Nat) :
    to_difference_type x % (SIZE_MOD : Int) = (x : Int) % (SIZE_MOD : Int) := by
  simp only [to_difference_type, SIZE_MOD]
  split <;> omega

theorem wrap_difference_of_range (z : Int) (h1 : -(2 ^ 63) ≤ z) (h2 : z < 2 ^ 63) :
    wrap_difference z = z := by
  simp only [wrap_difference, to_difference_type, to_size_t, SIZE_MOD]
  split <;> omega

theorem wrap_difference_emod (z : Int) :
    wrap_difference z % (SIZE_MOD : Int) = z % (SIZE_MOD : Int) := by
  simp only [wrap_difference, to_difference_type, to_size_t, SIZE_MOD]
  split <;> omega

theorem add_add_index (c : FlattenIterator) (m n : Int) :
    ((c.add m).add n).global_index = (c.add (m + n)).global_index := by
  simp only [FlattenIterator.add, to_size_t, SIZE_MOD]
  omega


theorem deref_eq_flatten {T : Type} (it : FlattenIterator) (data : Jagged T) :
    it.deref data =
      match data.flatten[it.global_index]? with
      | some v => .ok v
      | none => .error .out_of_range := by
  by_cases h : it.global_index < total_count data
  · obtain ⟨v, hv, hd⟩ := deref_of_lt it data h
    rw [hv, hd]
  · have hge : total_count data ≤ it.global_index := by omega
    have hnone : data.flatten[it.global_index]? = none := by
      rw [List.getElem?_eq_none_iff, ← total_count_eq_length_flatten]; exact hge
    rw [hnone, deref_of_ge it data hge]

/-! ## Cursor arithmetic and order -/

/-- C11: for every cursor `c` and all signed integers `m` and `n`, offsetting
is associative, `(c + m) + n == c + (m + n)`: both sides refer to the same
container and carry the same logical index, the index being computed modulo
`2 ^ 64` as in the code; the same holds when the sum `m + n` is itself
reduced to the range of `difference_type`. -/
theorem add_add_eq_add_sum (c : FlattenIterator) (m n : Int) :
    ((c.add m).add n).eq (c.add (m + n)) = true ∧
    ((c.add m).add n).container = (c.add (m + n)).container ∧
    ((c.add m).add n).global_index = (c.add (m + n)).global_index ∧
    ((c.add m).add n).eq (c.add (wrap_difference (m + n))) = true := by
  have hidx := add_add_index c m n
  have hwrap : (c.add (wrap_difference (m + n))).global_index = (c.add (m + n)).global_index := by
    have := wrap_difference_emod (m + n)
    simp only [FlattenIterator.add, to_size_t, SIZE_MOD] at this ⊢
    omega
  refine ⟨?_, rfl, hidx, ?_⟩
  · simp only [FlattenIterator.eq, hidx]
    simp [FlattenIterator.add]
  · simp only [FlattenIterator.eq, hidx, hwrap]
    simp [FlattenIterator.add]

/-- C12, as stated, fails: for the valid cursor at index 3 of the view over
the container of `main` and the signed integer `n = 2 ^ 63 - 1`, the cursor
`c + n` stores the index `2 ^ 63 + 2`, which converts to `-(2 ^ 63) + 2`;
subtracting the converted index 3 gives `-(2 ^ 63) - 1`, outside the range
of `difference_type`, so the distance is a signed overflow and not `n`. -/
theorem distance_add_overflows :
    ((FlattenedVector.construct 0 example_data).begin.add 3).global_index
      ≤ total_count example_data ∧
    (((FlattenedVector.construct 0 example_data).begin.add 3).add (2 ^ 63 - 1)).global_index
      = 2 ^ 63 + 2 ∧
    to_difference_type (2 ^ 63 + 2) - to_difference_type 3 = -(2 ^ 63) - 1 ∧
    (((FlattenedVector.construct 0 example_data).begin.add 3).add (2 ^ 63 - 1)).distance
      ((FlattenedVector.construct 0 example_data).begin.add 3) = .error .signed_overflow ∧
    (((FlattenedVector.construct 0 example_data).begin.add 3).add (2 ^ 63 - 1)).distance
      ((FlattenedVector.construct 0 example_data).begin.add 3) ≠ .ok (2 ^ 63 - 1) := by
  refine ⟨by decide, by decide, by decide, by decide, by decide⟩

/-- C12, amended: for every cursor `c` whose index is at most `PTRDIFF_MAX`,
as is every valid cursor of a container in memory, and every signed integer
`n` of `difference_type` with `c.index + n` at most `PTRDIFF_MAX`, the
distance from `c` to `c + n` is `n`; negative `n` and `n` that move the
cursor outside the range of the view are included. -/
theorem distance_add_eq (c : FlattenIterator) (n : Int)
    (hc : c.global_index ≤ PTRDIFF_MAX) (hlo : -(2 ^ 63) ≤ n)
    (hsum : (c.global_index : Int) + n ≤ (PTRDIFF_MAX : Int)) :
    (c.add n).distance c = .ok n := by
  have hmoved : to_difference_type (c.add n).global_index = (c.global_index : Int) + n := by
    simp only [FlattenIterator.add, to_difference_type, to_size_t, SIZE_MOD, PTRDIFF_MAX]
      at hc hsum ⊢
    split <;> omega
  apply distance_of_range
  · rw [hmoved, to_difference_type_of_le _ hc]
    omega
  · exact hlo
  · simp only [PTRDIFF_MAX] at hsum
    omega

/-- Instance of amended C12: from the cursor at index 3, the offsets `-5`
(before `begin()`) and `40` give back the distances `-5` and `40`. -/
theorem distance_add_eq_witness :
    ((FlattenIterator.mk 0 3).add (-5)).distance ⟨0, 3⟩ = .ok (-5) ∧
    ((FlattenIterator.mk 0 3).add 40).distance ⟨0, 3⟩ = .ok 40 :=
  ⟨distance_add_eq ⟨0, 3⟩ (-5) (by decide) (by decide) (by decide),
   distance_add_eq ⟨0, 3⟩ 40 (by decide) (by decide) (by decide)⟩

/-- C13, as stated, fails: the cursor `begin() - 1` of the view over the
container of `main` stores the index `2 ^ 64 - 1`, and its distance to
`begin()` is `-1`, not the difference `2 ^ 64 - 1` of the stored indices. -/
theorem distance_before_begin_is_negative :
    ((FlattenedVector.construct 0 example_data).begin.sub 1).global_index = 2 ^ 64 - 1 ∧
    (FlattenedVector.construct 0 example_data).begin.global_index = 0 ∧
    ((FlattenedVector.construct 0 example_data).begin.sub 1).distance
      (FlattenedVector.construct 0 example_data).begin = .ok (-1) ∧
    ((FlattenedVector.construct 0 example_data).begin.sub 1).distance
      (FlattenedVector.construct 0 example_data).begin ≠
      .ok (((((FlattenedVector.construct 0 example_data).begin.sub 1).global_index : Nat) : Int)
        - (((FlattenedVector.construct 0 example_data).begin.global_index : Nat) : Int)) := by
  refine ⟨by decide, rfl, by decide, by decide⟩

/-- C13, amended: for two cursors whose stored indices are at most
`PTRDIFF_MAX`, the distance `a - b` is the signed mathematical integer
`a.index - b.index`, positive when `a` is after `b` and negative when `a` is
before `b`. -/
theorem distance_eq_index_difference (a b : FlattenIterator)
    (ha : a.global_index ≤ PTRDIFF_MAX) (hb : b.global_index ≤ PTRDIFF_MAX) :
    a.distance b = .ok ((a.global_index : Int) - (b.global_index : Int)) ∧
    (a.gt b = true → ∃ d, a.distance b = .ok d ∧ 0 < d) ∧
    (a.lt b = true → ∃ d, a.distance b = .ok d ∧ d < 0) := by
  have hmain : a.distance b = .ok ((a.global_index : Int) - (b.global_index : Int)) := by
    apply distance_of_range
    · rw [to_difference_type_of_le _ ha, to_difference_type_of_le _ hb]
    · simp only [PTRDIFF_MAX] at ha hb
      omega
    · simp only [PTRDIFF_MAX] at ha hb
      omega
  refine ⟨hmain, ?_, ?_⟩
  · intro h
    simp only [FlattenIterator.gt, decide_eq_true_eq] at h
    exact ⟨_, hmain, by omega⟩
  · intro h
    simp only [FlattenIterator.lt, decide_eq_true_eq] at h
    exact ⟨_, hmain, by omega⟩

/-- Instance of amended C13: the cursors at indices 2 and 7. -/
theorem distance_eq_index_difference_witness :
    (FlattenIterator.mk 0 2).distance ⟨0, 7⟩ = .ok (-5) ∧
    (FlattenIterator.mk 0 7).distance ⟨0, 2⟩ = .ok 5 :=
  ⟨(distance_eq_index_difference ⟨0, 2⟩ ⟨0, 7⟩ (by decide) (by decide)).1,
   (distance_eq_index_difference ⟨0, 7⟩ ⟨0, 2⟩ (by decide) (by decide)).1⟩

/-- C14: the four comparisons are those of the logical indices alone and
form a total order: `a < b` iff the index of `a` is below that of `b`; among
cursors over the same container exactly one of `a < b`, `a == b`, `a > b`
holds; `a <= b` holds iff `a > b` does not; and `c < c + 1` for every valid
cursor `c` of a container (of at most `PTRDIFF_MAX` elements, as any
container held in memory), in particular for every one whose successor
`c + 1` is within the range of the view. -/
theorem cursor_order {T : Type} (a b c : FlattenIterator) (data : Jagged T)
    (hfit : total_count data ≤ PTRDIFF_MAX)
    (hvalid : c.global_index ≤ total_count data) :
    (a.lt b = true ↔ a.global_index < b.global_index) ∧
    (a.gt b = true ↔ b.global_index < a.global_index) ∧
    (a.le b = true ↔ a.global_index ≤ b.global_index) ∧
    (a.ge b = true ↔ b.global_index ≤ a.global_index) ∧
    (a.container = b.container →
      (a.lt b = true ∧ a.eq b = false ∧ a.gt b = false) ∨
      (a.lt b = false ∧ a.eq b = true ∧ a.gt b = false) ∨
      (a.lt b = false ∧ a.eq b = false ∧ a.gt b = true)) ∧
    a.le b = !(a.gt b) ∧
    a.ge b = !(a.lt b) ∧
    (a.le b = true ∨ b.le a = true) ∧
    (∀ d : FlattenIterator, a.le b = true → b.le d = true → a.le d = true) ∧
    (a.container = b.container → a.le b = true → b.le a = true → a.eq b = true) ∧
    c.lt (c.add 1) = true ∧
    (c.add 1).global_index = c.global_index + 1 := by
  have hsucc' : (c.add 1).global_index = c.global_index + 1 := by
    simp only [FlattenIterator.add, to_size_t, SIZE_MOD, PTRDIFF_MAX] at hfit ⊢
    omega
  have hlt : c.lt (c.add 1) = true := by
    simp only [FlattenIterator.lt, hsucc']
    simp
  refine ⟨by simp [FlattenIterator.lt], by simp [FlattenIterator.gt],
    by simp [FlattenIterator.le], by simp [FlattenIterator.ge], ?_, ?_, ?_, ?_, ?_, ?_, hlt,
    hsucc'⟩
  · intro hcont
    simp only [FlattenIterator.lt, FlattenIterator.gt, FlattenIterator.eq, hcont, beq_self_eq_true,
      Bool.true_and, decide_eq_true_eq, decide_eq_false_iff_not, beq_iff_eq, beq_eq_false_iff_ne]
    omega
  · simp only [FlattenIterator.le, FlattenIterator.gt]
    by_cases h : a.global_index ≤ b.global_index
    · have : ¬ a.global_index > b.global_index := by omega
      simp [h, this]
    · have : a.global_index > b.global_index := by omega
      simp [h, this]
  · simp only [FlattenIterator.ge, FlattenIterator.lt]
    by_cases h : a.global_index ≥ b.global_index
    · have : ¬ a.global_index < b.global_index := by omega
      simp [h, this]
    · have : a.global_index < b.global_index := by omega
      simp [h, this]
  · simp only [FlattenIterator.le, decide_eq_true_eq]
    omega
  · intro d
    simp only [FlattenIterator.le, decide_eq_true_eq]
    omega
  · intro hcont
    simp only [FlattenIterator.le, FlattenIterator.eq, hcont, decide_eq_true_eq, beq_self_eq_true,
      Bool.true_and, beq_iff_eq]
    omega

/-- Instance of C14: in the view over the container of `main`, the cursor at
index 4 and the cursor at index 9, whose successor is `end()`, compare less
than their successors. -/
theorem cursor_order_witness :
    (FlattenIterator.mk 0 4).global_index ≤ total_count example_data ∧
    ((FlattenIterator.mk 0 4).add 1).global_index ≤ total_count example_data ∧
    (FlattenIterator.mk 0 4).lt ((FlattenIterator.mk 0 4).add 1) = true ∧
    (FlattenIterator.mk 0 9).lt ((FlattenIterator.mk 0 9).add 1) = true ∧
    ((FlattenIterator.mk 0 9).add 1).eq (FlattenedVector.construct 0 example_data).end_ = true :=
  ⟨by decide, by decide,
   (cursor_order ⟨0, 0⟩ ⟨0, 0⟩ ⟨0, 4⟩ example_data (by decide)
      (by decide)).2.2.2.2.2.2.2.2.2.2.1,
   (cursor_order ⟨0, 0⟩ ⟨0, 0⟩ ⟨0, 9⟩ example_data (by decide)
      (by decide)).2.2.2.2.2.2.2.2.2.2.1,
   by decide⟩

/-- C15: for every cursor `c`, signed integer `n` and container contents, the
indexed dereference `c[n]` behaves as the dereference of `c + n`: read, place
designated and assignment agree, so it fails in the same cases, namely with
the out-of-range error exactly when the index of `c + n` is not below the sum
of the inner lengths, and otherwise it gives the element of the
concatenation at that index; the cursor `c` itself is left unchanged. -/
theorem index_eq_deref_add {T : Type} (c : FlattenIterator) (n : Int) (data : Jagged T) (v : T) :
    c.index n data = (c.add n).deref data ∧
    c.index_place n data = (c.add n).place data ∧
    c.index_assign n data v = (c.add n).assign data v ∧
    (c.index_call n data).2 = (c.add n).deref data ∧
    (c.index_call n data).1 = c ∧
    (∀ e, c.index n data = .error e ↔
      (e = .out_of_range ∧ total_count data ≤ (c.global_index + to_size_t n) % SIZE_MOD)) ∧
    (∀ w, c.index n data = .ok w ↔
      data.flatten[(c.global_index + to_size_t n) % SIZE_MOD]? = some w) := by
  have hd := deref_eq_flatten (c.add n) data
  have hidx : (c.add n).global_index = (c.global_index + to_size_t n) % SIZE_MOD := rfl
  rw [hidx] at hd
  refine ⟨rfl, rfl, rfl, rfl, rfl, ?_, ?_⟩
  · intro e
    simp only [FlattenIterator.index, hd]
    by_cases hlt : (c.global_index + to_size_t n) % SIZE_MOD < total_count data
    · have hlen := hlt
      rw [total_count_eq_length_flatten] at hlen
      rw [List.getElem?_eq_getElem hlen]
      constructor
      · intro h; cases h
      · intro h; omega
    · have hnone : data.flatten[(c.global_index + to_size_t n) % SIZE_MOD]? = none := by
        rw [List.getElem?_eq_none_iff, ← total_count_eq_length_flatten]; omega
      rw [hnone]
      constructor
      · intro h; cases h; exact ⟨rfl, by omega⟩
      · intro h; rw [h.1]
  · intro w
    simp only [FlattenIterator.index, hd]
    cases data.flatten[(c.global_index + to_size_t n) % SIZE_MOD]? with
    | none => simp
    | some x => simp


/-! ## Cached count and live resolution -/

theorem traverse_loop_shrunk {T : Type} (fv : FlattenedVector) (current : Jagged T)
    (hshrunk : total_count current < fv.total_size) (hfit : fv.total_size ≤ SIZE_MAX) :
    ∀ (fuel i : Nat), i ≤ total_count current → total_count current - i < fuel →
      traverse_loop fv current fuel ⟨fv.data, i⟩ = some (.error .out_of_range) := by
  intro fuel
  induction fuel with
  | zero => intro i _ h; omega
  | succ fuel ih =>
    intro i hi hfuel
    have hne : i ≠ fv.total_size := by omega
    by_cases hend : i = total_count current
    · have hd := deref_of_ge ⟨fv.data, i⟩ current (by simp only []; omega)
      simp [traverse_loop, FlattenedVector.end_, ne_same_container, hne, hd]
    · have hlt : i < total_count current := by omega
      obtain ⟨v, _, hderef⟩ := deref_of_lt ⟨fv.data, i⟩ current hlt
      have hincr : (FlattenIterator.mk fv.data i).incr = ⟨fv.data, i + 1⟩ :=
        incr_of_lt _ (by simp only []; omega)
      have hrec := ih (i + 1) (by omega) (by omega)
      simp [traverse_loop, FlattenedVector.end_, ne_same_container, hne, hderef, hincr, hrec]

/-- C16: the count cached by a view is the one at construction, while
resolution follows the current contents.  For a view built when the
container held `data` and a container that now holds `current`: `begin()`
and `end()` carry the indices 0 and the sum of lengths of `data`; the
dereference of a cursor at index `i` succeeds exactly when `i` is below the
sum of lengths of `current`, and gives the `i`-th element of the
concatenation of `current`; so the dereference of `end()` succeeds once the
container has grown, and the traversal from `begin()` to `end()` returns the
out-of-range error once it has shrunk. -/
theorem cached_count_live_resolution {T : Type} (ptr : Nat) (data current : Jagged T) (i : Nat)
    (hfit : total_count data ≤ SIZE_MAX) :
    (FlattenedVector.construct ptr data).begin.global_index = 0 ∧
    (FlattenedVector.construct ptr data).end_.global_index = total_count data ∧
    (∀ w, (FlattenIterator.mk ptr i).deref current = .ok w ↔ current.flatten[i]? = some w) ∧
    ((∃ w, (FlattenIterator.mk ptr i).deref current = .ok w) ↔ i < total_count current) ∧
    ((FlattenIterator.mk ptr i).deref current = .error .out_of_range ↔ total_count current ≤ i) ∧
    (total_count data < total_count current →
      ∃ w, (FlattenedVector.construct ptr data).end_.deref current = .ok w ∧
        current.flatten[total_count data]? = some w) ∧
    (total_count current < total_count data → ∀ fuel, total_count current < fuel →
      traverse fuel (FlattenedVector.construct ptr data) current
        = some (.error .out_of_range)) := by
  have hsize := construct_total_size_of_le ptr data hfit
  refine ⟨rfl, hsize, ?_, ?_, ?_, ?_, ?_⟩
  · intro w
    rw [deref_eq_flatten]
    cases current.flatten[i]? with
    | none => simp
    | some x => simp
  · constructor
    · rintro ⟨w, hw⟩
      by_contra hge
      rw [deref_of_ge ⟨ptr, i⟩ current (by simp only []; omega)] at hw
      cases hw
    · intro hlt
      obtain ⟨v, _, hd⟩ := deref_of_lt ⟨ptr, i⟩ current hlt
      exact ⟨v, hd⟩
  · constructor
    · intro herr
      by_contra hlt
      obtain ⟨v, _, hd⟩ := deref_of_lt ⟨ptr, i⟩ current (by simp only []; omega)
      rw [hd] at herr
      cases herr
    · intro hge
      exact deref_of_ge ⟨ptr, i⟩ current hge
  · intro hgrown
    obtain ⟨v, hv, hd⟩ := deref_of_lt (FlattenedVector.construct ptr data).end_ current
      (by simp only [FlattenedVector.end_, hsize]; exact hgrown)
    simp only [FlattenedVector.end_, hsize] at hv
    exact ⟨v, hd, hv⟩
  · intro hshrunk fuel hfuel
    have := traverse_loop_shrunk (FlattenedVector.construct ptr data) current
      (by rw [hsize]; exact hshrunk) (by rw [hsize]; exact hfit) fuel 0 (Nat.zero_le _) (by omega)
    simpa [traverse, FlattenedVector.begin] using this

/-- Instance of C16: a view built over `[[1, 2]]`; after the container has
grown to `[[1, 2], [3]]` the dereference of `end()` reads 3, and after it
has shrunk to `[[1]]` the traversal ends with the out-of-range error. -/
theorem cached_count_live_resolution_witness :
    total_count ([[1, 2]] : Jagged Int) ≤ SIZE_MAX ∧
    (FlattenedVector.construct 0 ([[1, 2]] : Jagged Int)).end_.global_index = 2 ∧
    (FlattenedVector.construct 0 ([[1, 2]] : Jagged Int)).end_.deref
      ([[1, 2], [3]] : Jagged Int) = .ok 3 ∧
    (∃ w, (FlattenedVector.construct 0 ([[1, 2]] : Jagged Int)).end_.deref
        ([[1, 2], [3]] : Jagged Int) = .ok w ∧
      ([[1, 2], [3]] : Jagged Int).flatten[total_count ([[1, 2]] : Jagged Int)]? = some w) ∧
    traverse 2 (FlattenedVector.construct 0 ([[1, 2]] : Jagged Int)) ([[1]] : Jagged Int)
      = some (.error .out_of_range) :=
  ⟨by decide,
   (cached_count_live_resolution 0 ([[1, 2]] : Jagged Int) [[1, 2], [3]] 0 (by decide)).2.1,
   by decide,
   (cached_count_live_resolution 0 ([[1, 2]] : Jagged Int) [[1, 2], [3]] 0
      (by decide)).2.2.2.2.2.1 (by decide),
   (cached_count_live_resolution 0 ([[1, 2]] : Jagged Int) [[1]] 0
      (by decide)).2.2.2.2.2.2 (by decide) 2 (by decide)⟩


/-! ## Rendering -/

theorem foldl_append_string (l : List String) :
    ∀ acc : String, l.foldl (fun r s => r ++ s) acc = acc ++ l.foldl (fun r s => r ++ s) "" := by
  induction l with
  | nil => intro acc; simp
  | cons a l ih =>
    intro acc
    rw [List.foldl_cons, List.foldl_cons, ih (acc ++ a), ih ("" ++ a), String.empty_append,
      String.append_assoc]

theorem string_join_cons (a : String) (l : List String) :
    String.join (a :: l) = a ++ String.join l := by
  simp only [String.join, List.foldl_cons]
  rw [foldl_append_string l ("" ++ a), String.empty_append]

theorem matrix_row_loop_go {T : Type} (to_text : T → String) (elems : List T) :
    ∀ (j : Nat) (os acc : String), 0 < j →
      matrix_row_loop to_text elems j (os ++ acc)
        = os ++ String.intercalate.go acc ", " (elems.map to_text) := by
  induction elems with
  | nil => intro j os acc _; rfl
  | cons x elems ih =>
    intro j os acc hj
    have hstep : os ++ acc ++ ", " ++ to_text x = os ++ (acc ++ ", " ++ to_text x) := by
      simp only [String.append_assoc]
    simp only [matrix_row_loop, hj, if_true, List.map_cons, String.intercalate.go]
    rw [hstep]
    exact ih (j + 1) os _ (Nat.succ_pos j)

theorem matrix_row_loop_spec {T : Type} (to_text : T → String) (x : T) (elems : List T)
    (os : String) :
    matrix_row_loop to_text (x :: elems) 0 os
      = os ++ String.intercalate ", " ((x :: elems).map to_text) := by
  simp only [matrix_row_loop, Nat.lt_irrefl, if_false, List.map_cons, String.intercalate]
  exact matrix_row_loop_go to_text elems 1 os (to_text x) Nat.one_pos

theorem matrix_loop_spec {T : Type} (to_text : T → String) (rows : List (List T)) :
    ∀ os : String, matrix_loop to_text rows os
      = os ++ String.join (rows.map (matrix_line to_text)) := by
  induction rows with
  | nil => intro os; simp [matrix_loop, String.join]
  | cons row rows ih =>
    intro os
    rw [matrix_loop, ih, List.map_cons, string_join_cons, ← String.append_assoc]
    congr 1
    cases row with
    | nil => simp [matrix_line, String.append_assoc]
    | cons x elems =>
      rw [matrix_row_loop_spec]
      simp [matrix_line, String.append_assoc]

/-- C17: the matrix rendering of a view writes, for each inner sequence in
outer order, one line made of `[ `, a body, ` ]` and a newline, where the
body is the marker `<empty>` for an inner sequence of length 0 and otherwise
its elements in order separated by a comma and a space; there are as many
lines as inner sequences, and nothing is written for a container with no
inner sequence. -/
theorem render_matrix_eq_lines {T : Type} (to_text : T → String) (data : Jagged T) :
    render_matrix to_text data = String.join (data.map (matrix_line to_text)) ∧
    render_matrix to_text data = matrix_text to_text data ∧
    (data.map (matrix_line to_text)).length = data.length ∧
    (∀ row : List T, row.length = 0 → matrix_line to_text row = "[ <empty> ]\n") ∧
    (∀ row : List T, row.length ≠ 0 → matrix_line to_text row
      = "[ " ++ String.intercalate ", " (row.map to_text) ++ " ]" ++ "\n") ∧
    render_matrix to_text ([] : Jagged T) = "" ∧
    render_matrix int_text example_data
      = "[ 3, 1, 4 ]\n[ <empty> ]\n[ 1, 5, 9 ]\n[ 2, 6, 5, 3 ]\n[ <empty> ]\n" := by
  have h := matrix_loop_spec to_text data ""
  rw [String.empty_append] at h
  refine ⟨h, h, by simp, ?_, ?_, rfl, by decide⟩
  · intro row hrow
    simp only [matrix_line, hrow, if_true]
    decide
  · intro row hrow
    simp only [matrix_line, hrow, if_false]

/-- Instance of C17 on a container of one row of two elements and one empty
row. -/
theorem render_matrix_eq_lines_witness :
    matrix_line int_text ([] : List Int) = "[ <empty> ]\n" ∧
    render_matrix int_text ([[1, 2], []] : Jagged Int) = "[ 1, 2 ]\n[ <empty> ]\n" :=
  ⟨(render_matrix_eq_lines int_text ([[1, 2], []] : Jagged Int)).2.2.2.1 [] rfl,
   ((render_matrix_eq_lines int_text ([[1, 2], []] : Jagged Int)).1).trans (by decide)⟩

theorem print_flat_loop_go {T : Type} (to_text : T → String) (fv : FlattenedVector)
    (data : Jagged T) (htotal : fv.total_size = total_count data)
    (hfit : total_count data ≤ SIZE_MAX) :
    ∀ (fuel i : Nat) (os acc : String), i ≤ total_count data → total_count data - i < fuel →
      print_flat_loop to_text fv data fuel ⟨fv.data, i⟩ false (os ++ acc)
        = some (.ok (os ++ String.intercalate.go acc ", " ((data.flatten.drop i).map to_text))) := by
  intro fuel
  induction fuel with
  | zero => intro i _ _ _ h; omega
  | succ fuel ih =>
    intro i os acc hi hfuel
    by_cases hend : i = total_count data
    · subst hend
      have hdrop : data.flatten.drop (total_count data) = [] := by
        rw [total_count_eq_length_flatten]; simp
      simp [print_flat_loop, FlattenedVector.end_, htotal, ne_same_container, hdrop,
        String.intercalate.go]
    · have hlt : i < total_count data := by omega
      obtain ⟨v, hv, hderef⟩ := deref_of_lt ⟨fv.data, i⟩ data hlt
      have hincr : (FlattenIterator.mk fv.data i).incr = ⟨fv.data, i + 1⟩ :=
        incr_of_lt _ (by simp only []; omega)
      have hlen : i < data.flatten.length := by
        rw [← total_count_eq_length_flatten]; exact hlt
      have hget : data.flatten[i] = v := by
        rw [List.getElem?_eq_getElem hlen] at hv
        exact Option.some.inj hv
      have hdrop : data.flatten.drop i = v :: data.flatten.drop (i + 1) := by
        rw [← hget]; exact List.drop_eq_getElem_cons hlen
      have hstep : os ++ acc ++ ", " ++ to_text v = os ++ (acc ++ ", " ++ to_text v) := by
        simp only [String.append_assoc]
      have hrec := ih (i + 1) os (acc ++ ", " ++ to_text v) (by omega) (by omega)
      simp only [print_flat_loop, FlattenedVector.end_, htotal, ne_same_container, hderef, hincr,
        hdrop, List.map_cons, String.intercalate.go, Bool.not_false, if_true]
      rw [if_pos (by simpa using hend), hstep]
      exact hrec

theorem print_flat_loop_spec {T : Type} (to_text : T → String) (fv : FlattenedVector)
    (data : Jagged T) (htotal : fv.total_size = total_count data)
    (hfit : total_count data ≤ SIZE_MAX) (fuel : Nat) (hfuel : total_count data < fuel)
    (os : String) :
    print_flat_loop to_text fv data fuel ⟨fv.data, 0⟩ true os
      = some (.ok (os ++ String.intercalate ", " (data.flatten.map to_text))) := by
  cases fuel with
  | zero => omega
  | succ fuel =>
    by_cases hzero : total_count data = 0
    · have hnil : data.flatten = [] := by
        rw [← List.length_eq_zero, ← total_count_eq_length_flatten]; exact hzero
      simp [print_flat_loop, FlattenedVector.end_, htotal, ne_same_container, hzero, hnil,
        String.intercalate]
    · have hlt : 0 < total_count data := by omega
      obtain ⟨v, hv, hderef⟩ := deref_of_lt ⟨fv.data, 0⟩ data hlt
      have hincr : (FlattenIterator.mk fv.data 0).incr = ⟨fv.data, 1⟩ :=
        incr_of_lt _ (by simp only []; omega)
      have hlen : 0 < data.flatten.length := by
        rw [← total_count_eq_length_flatten]; exact hlt
      have hget : data.flatten[0] = v := by
        rw [List.getElem?_eq_getElem hlen] at hv
        exact Option.some.inj hv
      have hdrop : data.flatten = v :: data.flatten.drop 1 := by
        have := List.drop_eq_getElem_cons hlen
        rw [hget] at this
        simpa using this
      have hrec := print_flat_loop_go to_text fv data htotal hfit fuel 1 os (to_text v)
        (by omega) (by omega)
      have hne : (0 : Nat) ≠ total_count data := by omega
      simp only [print_flat_loop, FlattenedVector.end_, htotal, ne_same_container, hderef, hincr,
        Bool.not_true]
      rw [if_pos (by simpa using hne)]
      simp only [Bool.false_eq_true, if_false]
      rw [hrec]
      conv_rhs => rw [hdrop]
      simp only [List.map_cons, String.intercalate]

/-- C18: the flat rendering of a view whose container still holds what it
held at construction (fewer than `2 ^ 64` elements) returns, given more fuel
than there are elements, and writes one line: `[ `, then every element of
the concatenation of the inner sequences in order, separated by a comma and
a space with none before the first or after the last, then ` ]` and a
newline; with no element the line is `[  ]`. -/
theorem print_flat_eq_line {T : Type} (to_text : T → String) (ptr : Nat) (data : Jagged T)
    (fuel : Nat) (hfit : total_count data ≤ SIZE_MAX) (hfuel : total_count data < fuel) :
    print_flat to_text fuel (FlattenedVector.construct ptr data) data
      = some (.ok ("[ " ++ String.intercalate ", " (data.flatten.map to_text) ++ " ]" ++ "\n")) ∧
    print_flat to_text fuel (FlattenedVector.construct ptr data) data
      = some (.ok (flat_text to_text data)) ∧
    (total_count data = 0 →
      print_flat to_text fuel (FlattenedVector.construct ptr data) data = some (.ok "[  ]\n")) ∧
    print_flat int_text 11 (FlattenedVector.construct ptr example_data) example_data
      = some (.ok "[ 3, 1, 4, 1, 5, 9, 2, 6, 5, 3 ]\n") := by
  have key : ∀ (d : Jagged T) (n : Nat), total_count d ≤ SIZE_MAX → total_count d < n →
      print_flat to_text n (FlattenedVector.construct ptr d) d
        = some (.ok ("[ " ++ String.intercalate ", " (d.flatten.map to_text) ++ " ]" ++ "\n")) := by
    intro d n h1 h2
    have hsize := construct_total_size_of_le ptr d h1
    have := print_flat_loop_spec to_text (FlattenedVector.construct ptr d) d hsize h1 n h2 "[ "
    simp only [print_flat, FlattenedVector.begin, this]
  have key' : print_flat int_text 11 (FlattenedVector.construct ptr example_data) example_data
      = some (.ok ("[ " ++ String.intercalate ", " (example_data.flatten.map int_text)
          ++ " ]" ++ "\n")) := by
    have hsize := construct_total_size_of_le ptr example_data (by decide)
    have := print_flat_loop_spec int_text (FlattenedVector.construct ptr example_data)
      example_data hsize (by decide) 11 (by decide) "[ "
    simp only [print_flat, FlattenedVector.begin, this]
  refine ⟨key data fuel hfit hfuel, key data fuel hfit hfuel, ?_, ?_⟩
  · intro hzero
    have hnil : data.flatten = [] := by
      rw [← List.length_eq_zero, ← total_count_eq_length_flatten]; exact hzero
    rw [key data fuel hfit hfuel, hnil]
    simp only [List.map_nil, String.intercalate]
    decide
  · rw [key']
    decide

/-- Instance of C18 on a three-row container with an empty middle row, and
on a container of two empty rows. -/
theorem print_flat_eq_line_witness :
    total_count ([[2, 1], [], [0]] : Jagged Int) ≤ SIZE_MAX ∧
    print_flat int_text 4 (FlattenedVector.construct 0 ([[2, 1], [], [0]] : Jagged Int))
      ([[2, 1], [], [0]] : Jagged Int) = some (.ok "[ 2, 1, 0 ]\n") ∧
    print_flat int_text 1 (FlattenedVector.construct 0 ([[], []] : Jagged Int))
      ([[], []] : Jagged Int) = some (.ok "[  ]\n") :=
  ⟨by decide,
   (print_flat_eq_line int_text 0 ([[2, 1], [], [0]] : Jagged Int) 4 (by decide)
      (by decide)).1,
   (print_flat_eq_line int_text 0 ([[], []] : Jagged Int) 1 (by decide) (by decide)).2.2.1
      (by decide)⟩


/-! ## Empty inner sequences and monotonicity -/

theorem flatten_drop_empty {T : Type} (data : Jagged T) :
    (drop_empty data).flatten = data.flatten := by
  induction data with
  | nil => rfl
  | cons row rows ih =>
    cases row with
    | nil => simpa [drop_empty] using ih
    | cons x elems => simpa [drop_empty] using ih

theorem flatten_insert_empty {T : Type} (data : Jagged T) (k : Nat) :
    (insert_empty data k).flatten = data.flatten := by
  simp only [insert_empty, List.flatten_append, List.flatten_cons, List.nil_append]
  rw [← List.flatten_append, List.take_append_drop]

theorem deref_congr_flatten {T : Type} (it : FlattenIterator) (data other : Jagged T)
    (h : data.flatten = other.flatten) : it.deref data = it.deref other := by
  rw [deref_eq_flatten, deref_eq_flatten, h]

theorem take_sum_succ (L : List Nat) :
    ∀ o : Nat, (L.take (o + 1)).sum = (L.take o).sum + L.getD o 0 := by
  induction L with
  | nil => intro o; simp
  | cons a L ih =>
    intro o
    cases o with
    | zero => simp
    | succ o =>
      have := ih o
      simp only [List.take_succ_cons, List.sum_cons, List.getD_cons_succ] at this ⊢
      omega

theorem take_sum_mono (L : List Nat) (a : Nat) :
    ∀ b : Nat, a ≤ b → (L.take a).sum ≤ (L.take b).sum := by
  intro b hab
  induction b with
  | zero =>
    have : a = 0 := by omega
    subst this
    exact le_refl _
  | succ b ih =>
    by_cases h : a = b + 1
    · subst h; exact le_refl _
    · have := ih (by omega)
      rw [take_sum_succ]
      omega

/-- C19: inner sequences of length 0 are transparent to resolution.  The
dereference at an index gives the same result, failure or value, over two
containers that differ only in their empty inner sequences, in particular
over a container and the one obtained by deleting its empty inner sequences
or by inserting one at any outer position; and `locate` never returns an
outer index whose inner sequence is empty. -/
theorem empty_rows_transparent {T : Type} (data other : Jagged T) (c i k : Nat) :
    (drop_empty data = drop_empty other →
      (FlattenIterator.mk c i).deref data = (FlattenIterator.mk c i).deref other) ∧
    (FlattenIterator.mk c i).deref (drop_empty data) = (FlattenIterator.mk c i).deref data ∧
    (FlattenIterator.mk c i).deref (insert_empty data k) = (FlattenIterator.mk c i).deref data ∧
    (∀ outer inner, locate data i = .ok (outer, inner) →
      (shape data).getD outer 0 ≠ 0 ∧ data.getD outer [] ≠ []) := by
  refine ⟨?_, ?_, ?_, ?_⟩
  · intro h
    apply deref_congr_flatten
    rw [← flatten_drop_empty data, ← flatten_drop_empty other, h]
  · exact deref_congr_flatten _ _ _ (flatten_drop_empty data)
  · exact deref_congr_flatten _ _ _ (flatten_insert_empty data k)
  · intro o n hloc
    have hi : i < total_count data := by
      by_contra hge
      rw [locate_error data i (by omega)] at hloc
      cases hloc
    obtain ⟨o', n', hloc', hres⟩ := locate_ok data i hi
    rw [hloc] at hloc'
    simp only [Except.ok.injEq, Prod.mk.injEq] at hloc'
    obtain ⟨rfl, rfl⟩ := hloc'
    have hlen := hres.inner_lt
    constructor
    · rw [shape_getD]; omega
    · intro hnil
      rw [hnil] at hlen
      simp at hlen

/-- Instance of C19: the container of `main` and the same elements with the
empty rows placed elsewhere give the same dereference at index 5. -/
theorem empty_rows_transparent_witness :
    (FlattenIterator.mk 0 5).deref example_data
      = (FlattenIterator.mk 0 5).deref ([[], [3, 1, 4], [1, 5, 9], [], [], [2, 6, 5, 3]] : Jagged Int) ∧
    (FlattenIterator.mk 0 5).deref example_data = .ok 9 :=
  ⟨(empty_rows_transparent example_data
      ([[], [3, 1, 4], [1, 5, 9], [], [], [2, 6, 5, 3]] : Jagged Int) 0 5 0).1 (by decide),
   by decide⟩

/-- C20: `locate` is strictly monotone.  For logical indices `i < j` below
the sum of the inner lengths, the coordinate of `i` is lexicographically
smaller than that of `j`: its outer index is smaller, or the outer indices
are equal and its inner index is smaller.  When `j = i + 1` the coordinates
are adjacent: the same outer index and the next inner index, or `i` is the
last position of its inner sequence and `j` is inner index 0 of the next
non-empty inner sequence, every inner sequence between the two being empty. -/
theorem locate_strictly_monotone {T : Type} (data : Jagged T) (i j : Nat)
    (hij : i < j) (hj : j < total_count data) :
    ∃ o n o' n', locate data i = .ok (o, n) ∧ locate data j = .ok (o', n') ∧
      (o < o' ∨ (o = o' ∧ n < n')) ∧
      (j = i + 1 →
        (o' = o ∧ n' = n + 1) ∨
        (o < o' ∧ n' = 0 ∧ n + 1 = (shape data).getD o 0 ∧ (shape data).getD o' 0 ≠ 0 ∧
          ∀ k, o < k → k < o' → (shape data).getD k 0 = 0)) := by
  obtain ⟨o, n, hloc, hres⟩ := locate_ok data i (by omega)
  obtain ⟨o', n', hloc', hres'⟩ := locate_ok data j hj
  have hoff := hres.offset
  have hoff' := hres'.offset
  have hn := hres.inner_lt
  have hn' := hres'.inner_lt
  rw [← shape_getD] at hn hn'
  have hsucc := take_sum_succ (shape data) o
  have hsucc' := take_sum_succ (shape data) o'
  have hlex : o < o' ∨ (o = o' ∧ n < n') := by
    rcases Nat.lt_trichotomy o o' with h | h | h
    · exact Or.inl h
    · subst h
      exact Or.inr ⟨rfl, by omega⟩
    · have := take_sum_mono (shape data) (o' + 1) o (by omega)
      omega
  refine ⟨o, n, o', n', hloc, hloc', hlex, ?_⟩
  intro hadj
  rcases hlex with h | ⟨h, _⟩
  · right
    have hmono := take_sum_mono (shape data) (o + 1) o' (by omega)
    refine ⟨h, by omega, by omega, by omega, ?_⟩
    intro k hk hk'
    have h1 := take_sum_mono (shape data) (o + 1) k (by omega)
    have h2 := take_sum_mono (shape data) (k + 1) o' (by omega)
    have h3 := take_sum_succ (shape data) k
    omega
  · left
    subst h
    exact ⟨rfl, by omega⟩

/-- Instance of C20 on the container of `main`: indices 2 and 3 are the last
position of the first inner sequence and the first of the third, the empty
second one lying between. -/
theorem locate_strictly_monotone_witness :
    locate example_data 2 = .ok (0, 2) ∧ locate example_data 3 = .ok (2, 0) ∧
    ∃ o n o' n', locate example_data 2 = .ok (o, n) ∧ locate example_data 3 = .ok (o', n') ∧
      (o < o' ∨ (o = o' ∧ n < n')) ∧
      (3 = 2 + 1 →
        (o' = o ∧ n' = n + 1) ∨
        (o < o' ∧ n' = 0 ∧ n + 1 = (shape example_data).getD o 0 ∧
          (shape example_data).getD o' 0 ≠ 0 ∧
          ∀ k, o < k → k < o' → (shape example_data).getD k 0 = 0)) :=
  ⟨by decide, by decide, locate_strictly_monotone example_data 2 3 (by decide) (by decide)⟩

end Flatten
